import Mathlib

/-!
Shallow embedding of `samples/build-duration-logger/index.js` and proofs about it.

The source program has three parts that the development below mirrors:

* `createServerSideEventStream(url, configuration)` — a wrapper around an
  SSE transport (the `eventsource` polyfill).  We embed the wrapper as a step
  function `connStep` that consumes one transport notification at a time and
  returns the updated wrapper state together with the callback the wrapper
  invokes (if any).  The transport itself is an external collaborator that the
  repository does not contain; its behaviour is modelled from the spec
  (section 6, push-stream transport contract): notifications stop once the
  stream is closed, a transient error is reported while the transport is in
  its reconnecting state, and the status 204 signal is terminal.
  The JS variable `retries` is declared with `let retries;` and stays
  `undefined` until the first successful open; we embed it as `Option Nat`
  where `none` plays the role of `undefined`, and the JS comparison
  `retries < maxRetries` (which is `false` when `retries` is `undefined`)
  becomes `jsLt`.

* `class BuildProcessor` — the bounded-concurrency scheduler
  (`enqueue` / `processPendingBuilds` / `processBuild` /
  `finishedProcessingBuild`) and the handler registry
  (`getHandledEventTypesForHandlerClass` / `getAllHandledEventTypes` /
  `createBuildEventHandlers` / `createBuildEventStreamUrl`).
  A handler class is embedded as the list of own property names of its
  prototype, in declaration order (for a JS class this list starts with
  `constructor`).  A per-build handler instance is identified by the position
  of its class in the configured class list.  The handler map built by
  `createBuildEventHandlers` is embedded as an association list from event
  type to the list of instance indices, in insertion order; a JS object with
  list values.  `numBuildsInProcess` is embedded as `Int` because the JS
  number can in principle be decremented below zero.

* the per-build processing loop of `processBuild` — embedded as `buildStep`,
  which layers the concrete callbacks that `processBuild` passes to
  `createServerSideEventStream` (the `oncomplete` callback that calls
  `finishedProcessingBuild` and then the `complete()` method of every
  instance registered under the reserved `complete` key, and the
  `BuildEvent` listener that dispatches one event) on top of `connStep`.
  A thrown `TypeError` (indexing a missing handler list or calling a missing
  method) is modelled by the `crashed` flag, after which nothing further
  happens.

JS string operations are embedded at character level:
`methodName.startsWith(p)` becomes `jsStartsWith` (the first
`p.length` characters equal `p`) and `methodName.substring(2)` becomes
`String.drop 2`, both faithful to the JS semantics on the ASCII method names
involved.  A JS `Set` keeps first-insertion order, embedded by `jsSet`.
-/

namespace BuildDurationLogger

/-! ## Resilient stream connection: createServerSideEventStream -/

/-- readyState of the underlying EventSource transport. -/
inductive ReadyState where
  | connecting
  | isOpen
  | closed
deriving DecidableEq, Repr

/-- One notification delivered by the transport to the wrapper:
a successful open, an error event carrying an optional numeric status
(`none` embeds a JS error event whose `status` field is `undefined`),
or a named message event whose payload we keep as a string. -/
inductive ConnNotif where
  | opened
  | errored (status : Option Nat)
  | message (name : String) (payload : String)
deriving DecidableEq, Repr

/-- One callback invocation performed by the wrapper on its configuration:
`onopen`, `onerror`, `oncomplete`, or a registered event listener. -/
inductive CallbackCall where
  | onOpen
  | onError (status : Option Nat)
  | onComplete
  | onEvent (name : String) (payload : String)
deriving DecidableEq, Repr

/-- JS: `const STATUS_COMPLETE = 204`. -/
def STATUS_COMPLETE : Nat := 204

/-- State owned by one `createServerSideEventStream` connection:
the `retries` counter (`none` embeds the initial JS `undefined`) and the
readyState of the underlying transport stream. -/
structure ConnState where
  retries : Option Nat
  readyState : ReadyState
deriving DecidableEq, Repr

/-- A freshly created connection: `let retries;` leaves the counter
undefined, and the transport starts out connecting. -/
def initConn : ConnState := { retries := none, readyState := ReadyState.connecting }

/-- The JS comparison `retries < maxRetries`: when `retries` is `undefined`
the comparison evaluates to `false`. -/
def jsLt : Option Nat → Nat → Bool
  | none, _ => false
  | some r, m => decide (r < m)

/-- One step of the wrapper: the transport delivers one notification and the
wrapper reacts as the source `stream.onopen` / `stream.onerror` / event
listener registrations do.  A closed stream delivers nothing (terminal, per
the transport contract).  On `opened` the wrapper sets `retries = 0` and
invokes `onopen`.  On an error with status 204 the wrapper invokes
`oncomplete` and returns; the transport treats 204 as terminal and closes.
On any other error the transport is in its reconnecting state
(readyState connecting) when the handler runs; the wrapper then either lets
the transport keep reconnecting (when `maxRetries > 0 && retries < maxRetries`,
incrementing `retries` only when the error carries a status) or calls
`stream.close()`; either way it finally invokes `onerror`.
Message events are delivered on an open stream to listeners registered for
that event name. -/
def connStep (maxRetries : Nat) (listeners : List String) (s : ConnState) (n : ConnNotif) :
    ConnState × Option CallbackCall :=
  if s.readyState = ReadyState.closed then (s, none)
  else
    match n with
    | ConnNotif.opened =>
        ({ retries := some 0, readyState := ReadyState.isOpen }, some CallbackCall.onOpen)
    | ConnNotif.errored st =>
        if st = some STATUS_COMPLETE then
          ({ s with readyState := ReadyState.closed }, some CallbackCall.onComplete)
        else
          let s1 : ConnState := { s with readyState := ReadyState.connecting }
          if s1.readyState = ReadyState.connecting then
            if (decide (0 < maxRetries) && jsLt s1.retries maxRetries) = true then
              ({ s1 with retries := if st.isSome then s1.retries.map (fun r => r + 1) else s1.retries },
               some (CallbackCall.onError st))
            else
              ({ s1 with readyState := ReadyState.closed }, some (CallbackCall.onError st))
          else (s1, some (CallbackCall.onError st))
    | ConnNotif.message nm p =>
        if s.readyState = ReadyState.isOpen ∧ nm ∈ listeners then
          (s, some (CallbackCall.onEvent nm p))
        else (s, none)

/-- Run a connection over a whole list of transport notifications, collecting
the callback invocations in order. -/
def connRun (maxRetries : Nat) (listeners : List String) (s : ConnState) :
    List ConnNotif → ConnState × List CallbackCall
  | [] => (s, [])
  | n :: ns =>
      let p := connStep maxRetries listeners s n
      let q := connRun maxRetries listeners p.1 ns
      (q.1, p.2.toList ++ q.2)

/-! ## Bounded concurrency scheduler: BuildProcessor queue handling -/

/-- The scheduling state of `BuildProcessor`: the pending queue, the
in-process counter and the configured limit.  The `admitted` field is a ghost
field recording, in order, the builds handed to `processBuild`. -/
structure SchedState where
  pendingBuilds : List String
  numBuildsInProcess : Int
  maxConcurrentBuildsToProcess : Int
  admitted : List String
deriving DecidableEq, Repr

/-- Scheduler state right after the `BuildProcessor` constructor ran. -/
def initSched (maxConcurrent : Int) : SchedState :=
  { pendingBuilds := [], numBuildsInProcess := 0,
    maxConcurrentBuildsToProcess := maxConcurrent, admitted := [] }

/-- JS `processBuild(build)`, restricted to its effect on the scheduling
state: increment `numBuildsInProcess` and hand the build over (recorded in
the ghost `admitted` list).  Opening the per-build stream is modelled
separately by `buildStep`. -/
def processBuild (s : SchedState) (b : String) : SchedState :=
  { s with numBuildsInProcess := s.numBuildsInProcess + 1, admitted := s.admitted ++ [b] }

/-- JS `processPendingBuilds()`: if the queue is non-empty and the in-process
count is below the limit, shift the head off the queue and process it. -/
def processPendingBuilds (s : SchedState) : SchedState :=
  match s.pendingBuilds with
  | [] => s
  | b :: rest =>
      if s.numBuildsInProcess < s.maxConcurrentBuildsToProcess then
        processBuild { s with pendingBuilds := rest } b
      else s

/-- JS `enqueue(build)`: push onto the queue, then attempt admission. -/
def enqueue (s : SchedState) (b : String) : SchedState :=
  processPendingBuilds { s with pendingBuilds := s.pendingBuilds ++ [b] }

/-- JS `finishedProcessingBuild()`, restricted to the synchronous part:
decrement the in-process count.  The deferred
`setTimeout(() => this.processPendingBuilds(), 0)` continuation is modelled
as a separate `pump` event so that other work may interleave before it runs. -/
def finishedProcessingBuild (s : SchedState) : SchedState :=
  { s with numBuildsInProcess := s.numBuildsInProcess - 1 }

/-- The events that drive the scheduler: a Build event arriving from the
build stream listener, the synchronous decrement performed by
`finishedProcessingBuild`, and the deferred `processPendingBuilds`
continuation it schedules. -/
inductive SchedEvent where
  | enqueue (b : String)
  | finishRelease
  | pump
deriving DecidableEq, Repr

/-- One scheduler transition. -/
def schedStep (s : SchedState) : SchedEvent → SchedState
  | SchedEvent.enqueue b => enqueue s b
  | SchedEvent.finishRelease => finishedProcessingBuild s
  | SchedEvent.pump => processPendingBuilds s

/-- Run the scheduler over a list of events. -/
def schedRun (s : SchedState) : List SchedEvent → SchedState
  | [] => s
  | e :: es => schedRun (schedStep s e) es

/-- The builds enqueued by a list of scheduler events, in order. -/
def enqueuedOf (es : List SchedEvent) : List String :=
  es.filterMap (fun e =>
    match e with
    | SchedEvent.enqueue b => some b
    | _ => none)

/-! ## Handler registry -/

/-- A build event handler class, embedded as the list of own property names
of its prototype in declaration order (`Object.getOwnPropertyNames`); for a
JS class this starts with `constructor`. -/
structure HandlerClass where
  methods : List String
deriving DecidableEq, Repr

/-- JS `m.startsWith(p)`: the first `p.length` characters of `m` are `p`. -/
def jsStartsWith (m p : String) : Bool := m.take p.length == p

/-- JS `getHandledEventTypesForHandlerClass`: keep the method names starting
with `on` and take the part after the `on` (JS `substring(2)`). -/
def getHandledEventTypesForHandlerClass (c : HandlerClass) : List String :=
  (c.methods.filter (fun m => jsStartsWith m "on")).map (fun m => m.drop 2)

/-- A JS `Set` built from a list: deduplicate keeping first-insertion order. -/
def jsSet (l : List String) : List String :=
  l.foldl (fun acc t => if t ∈ acc then acc else acc ++ [t]) []

/-- JS `getAllHandledEventTypes`: reduce with concat over all classes, then
form a `Set`. -/
def getAllHandledEventTypes (classes : List HandlerClass) : List String :=
  jsSet (classes.foldl (fun acc c => acc ++ getHandledEventTypesForHandlerClass c) [])

/-- JS `createBuildStreamUrl`. -/
def createBuildStreamUrl (serverUrl startTime : String) : String :=
  serverUrl ++ "/build-export/v1/builds/since/" ++ startTime ++ "?stream"

/-- JS `createBuildEventStreamUrl`: the per-build URL with the joined set of
all handled event types. -/
def createBuildEventStreamUrl (serverUrl : String) (classes : List HandlerClass)
    (buildId : String) : String :=
  serverUrl ++ "/build-export/v1/build/" ++ buildId ++ "/events?eventTypes=" ++
    String.intercalate "," (getAllHandledEventTypes classes)

/-- JS `addHandler(type, handler)` inside `createBuildEventHandlers`:
if the key already has a (necessarily truthy) list, push; otherwise create a
one-element list under the key. -/
def addHandler (handlers : List (String × List Nat)) (t : String) (i : Nat) :
    List (String × List Nat) :=
  if (handlers.lookup t).isSome then
    handlers.map (fun p => if p.1 = t then (p.1, p.2 ++ [i]) else p)
  else handlers ++ [(t, [i])]

/-- The contribution of one class (at instance index `i`) to
`createBuildEventHandlers`: one `addHandler` call for each handled event
type, then one for the reserved `complete` key when the prototype has a
`complete` member. -/
def addHandlersForClass (handlers : List (String × List Nat)) (i : Nat) (c : HandlerClass) :
    List (String × List Nat) :=
  let withEvents :=
    (getHandledEventTypesForHandlerClass c).foldl (fun hs t => addHandler hs t i) handlers
  if c.methods.contains "complete" then addHandler withEvents "complete" i else withEvents

/-- Recursion worker for `createBuildEventHandlers`; `i` is the instance
index of the first class in `classes`. -/
def createBuildEventHandlersAux (handlers : List (String × List Nat))
    (classes : List HandlerClass) (i : Nat) : List (String × List Nat) :=
  match classes with
  | [] => handlers
  | c :: rest => createBuildEventHandlersAux (addHandlersForClass handlers i c) rest (i + 1)

/-- JS `createBuildEventHandlers(build)`: reduce over the handler classes,
instantiating one handler per class (instance index = class position) and
registering it under each handled event type, plus under `complete` when the
class has a `complete` method. -/
def createBuildEventHandlers (classes : List HandlerClass) : List (String × List Nat) :=
  createBuildEventHandlersAux [] classes 0

/-- The body of the `BuildEvent` listener in `processBuild`: for the decoded
event type, if `allHandledEventTypes.has(eventType)` then every handler in
`buildEventHandlers[eventType]` has its `on<eventType>` method invoked, in
list order; otherwise the event is ignored.  The result lists the performed
invocations as (instance index, method name) pairs; `none` embeds a thrown
`TypeError` (indexing an absent list, or an instance without the method). -/
def dispatchBuildEvent (classes : List HandlerClass) (eventType : String) :
    Option (List (Nat × String)) :=
  if (getAllHandledEventTypes classes).contains eventType then
    match (createBuildEventHandlers classes).lookup eventType with
    | none => none
    | some hs =>
        if hs.all (fun i =>
            match classes.get? i with
            | some c => c.methods.contains ("on" ++ eventType)
            | none => false) then
          some (hs.map (fun i => (i, "on" ++ eventType)))
        else none
  else some []

/-- Combine a previous optional handler list with further appended handlers:
no change when nothing is appended, otherwise the (possibly empty) old list
extended by the new handlers.  This is the shape in which successive
`addHandler` calls act on one key of the handler map. -/
def extendEntry (o : Option (List Nat)) (l : List Nat) : Option (List Nat) :=
  match l with
  | [] => o
  | _ => some (o.getD [] ++ l)

/-- The handler-map entries that the class at instance index `i` appends
under key `t`: one occurrence of `i` per handled event type equal to `t`,
then one more when `t` is the reserved `complete` key and the class has a
`complete` method. -/
def classContribution (i : Nat) (c : HandlerClass) (t : String) : List Nat :=
  List.replicate ((getHandledEventTypesForHandlerClass c).count t) i ++
    (if t = "complete" ∧ c.methods.contains "complete" = true then [i] else [])

/-- All handler-map entries appended under key `t` by the classes of
`classes`, whose first class has instance index `i`. -/
def contributionsFrom (classes : List HandlerClass) (i : Nat) (t : String) : List Nat :=
  match classes with
  | [] => []
  | c :: rest => classContribution i c t ++ contributionsFrom rest (i + 1) t

/-- The instance indices of the classes declaring a `complete` method,
starting from index `i`, in order. -/
def eligibleCompleteAux (classes : List HandlerClass) (i : Nat) : List Nat :=
  match classes with
  | [] => []
  | c :: rest =>
      (if c.methods.contains "complete" = true then [i] else []) ++
        eligibleCompleteAux rest (i + 1)

/-- The instance indices of the classes declaring a `complete` method. -/
def eligibleComplete (classes : List HandlerClass) : List Nat :=
  eligibleCompleteAux classes 0

/-! ## Per-build processing: processBuild and its stream callbacks -/

/-- The run state of one per-build stream opened by `processBuild`:
the wrapper state, the event dispatches performed so far, the instance
indices whose `complete()` ran (in order), whether
`finishedProcessingBuild()` was invoked, and whether a `TypeError` was
thrown. -/
structure BuildRunState where
  conn : ConnState
  dispatches : List (Nat × String)
  completeCalls : List Nat
  releaseCalled : Bool
  crashed : Bool
deriving DecidableEq, Repr

/-- Per-build stream state right after `processBuild` opened it. -/
def initBuildRun : BuildRunState :=
  { conn := initConn, dispatches := [], completeCalls := [], releaseCalled := false,
    crashed := false }

/-- One step of the per-build stream: the wrapper processes the notification
and the concrete callbacks of `processBuild` run.  The `oncomplete` callback
first calls `finishedProcessingBuild()` and then, when the handler map has a
(truthy) `complete` entry, calls `complete()` on each registered instance;
an instance without a `complete` method makes that throw (`crashed`).
The `BuildEvent` listener dispatches through `dispatchBuildEvent`.
`processBuild` configures no `onerror`, so errors invoke the `noop`
default. -/
def buildStep (classes : List HandlerClass) (maxRetries : Nat) (s : BuildRunState)
    (n : ConnNotif) : BuildRunState :=
  if s.crashed then s
  else
    let p := connStep maxRetries ["BuildEvent"] s.conn n
    let s1 : BuildRunState := { s with conn := p.1 }
    match p.2 with
    | none => s1
    | some CallbackCall.onOpen => s1
    | some (CallbackCall.onError _) => s1
    | some CallbackCall.onComplete =>
        let s2 : BuildRunState := { s1 with releaseCalled := true }
        match (createBuildEventHandlers classes).lookup "complete" with
        | none => s2
        | some hs =>
            if hs.all (fun i =>
                match classes.get? i with
                | some c => c.methods.contains "complete"
                | none => false) then
              { s2 with completeCalls := s2.completeCalls ++ hs }
            else { s2 with crashed := true }
    | some (CallbackCall.onEvent _ payload) =>
        match dispatchBuildEvent classes payload with
        | some ds => { s1 with dispatches := s1.dispatches ++ ds }
        | none => { s1 with crashed := true }

/-- Run one per-build stream over a list of transport notifications. -/
def buildRun (classes : List HandlerClass) (maxRetries : Nat) (s : BuildRunState) :
    List ConnNotif → BuildRunState
  | [] => s
  | n :: ns => buildRun classes maxRetries (buildStep classes maxRetries s n) ns

/-! ## The concrete configuration of the sample -/

/-- JS `class BuildDurationEventsHandler`: prototype own property names. -/
def BuildDurationEventsHandler : HandlerClass :=
  { methods := ["constructor", "onBuildStarted", "onBuildFinished"] }

/-- JS `class CacheableTaskCountHandler`: prototype own property names. -/
def CacheableTaskCountHandler : HandlerClass :=
  { methods := ["constructor", "onTaskFinished", "complete"] }

/-- JS `const BUILD_EVENT_HANDLERS`. -/
def BUILD_EVENT_HANDLERS : List HandlerClass :=
  [BuildDurationEventsHandler, CacheableTaskCountHandler]

/-! ## Helper lemmas: the connection machine -/

theorem connStep_closed (maxR : Nat) (L : List String) (s : ConnState) (n : ConnNotif)
    (h : s.readyState = ReadyState.closed) : connStep maxR L s n = (s, none) := by
  simp [connStep, h]

theorem connRun_closed (maxR : Nat) (L : List String) :
    ∀ (t : List ConnNotif) (s : ConnState), s.readyState = ReadyState.closed →
      connRun maxR L s t = (s, []) := by
  intro t
  induction t with
  | nil => intro s _; rfl
  | cons n ns ih =>
      intro s h
      simp [connRun, connStep_closed maxR L s n h, ih s h]

theorem connRun_append (maxR : Nat) (L : List String) :
    ∀ (t1 t2 : List ConnNotif) (s : ConnState),
      connRun maxR L s (t1 ++ t2) =
        ((connRun maxR L (connRun maxR L s t1).1 t2).1,
          (connRun maxR L s t1).2 ++ (connRun maxR L (connRun maxR L s t1).1 t2).2) := by
  intro t1
  induction t1 with
  | nil => intro t2 s; simp [connRun]
  | cons n ns ih =>
      intro t2 s
      simp only [List.cons_append, connRun, List.append_eq]
      rw [ih]
      simp [List.append_assoc]

theorem connStep_errored (maxR : Nat) (L : List String) (s : ConnState) (st : Option Nat)
    (hc : s.readyState ≠ ReadyState.closed) (h204 : st ≠ some STATUS_COMPLETE) :
    connStep maxR L s (ConnNotif.errored st) =
      if (decide (0 < maxR) && jsLt s.retries maxR) = true then
        ({ retries := if st.isSome then s.retries.map (fun r => r + 1) else s.retries,
           readyState := ReadyState.connecting }, some (CallbackCall.onError st))
      else ({ retries := s.retries, readyState := ReadyState.closed },
            some (CallbackCall.onError st)) := by
  simp [connStep, hc, h204]

theorem connStep_onComplete (maxR : Nat) (L : List String) (s : ConnState) (n : ConnNotif)
    (h : (connStep maxR L s n).2 = some CallbackCall.onComplete) :
    (connStep maxR L s n).1.readyState = ReadyState.closed ∧
      n = ConnNotif.errored (some STATUS_COMPLETE) := by
  by_cases hc : s.readyState = ReadyState.closed
  · simp [connStep_closed maxR L s n hc] at h
  · cases n with
    | opened => simp [connStep, hc] at h
    | errored st =>
        by_cases h204 : st = some STATUS_COMPLETE
        · subst h204
          simp [connStep, hc]
        · rw [connStep_errored maxR L s st hc h204] at h
          split at h <;> simp at h
    | message nm p =>
        simp only [connStep, hc, if_false] at h
        split at h <;> simp_all

theorem connStep_onComplete_step (maxR : Nat) (L : List String) (s : ConnState)
    (h : s.readyState ≠ ReadyState.closed) :
    connStep maxR L s (ConnNotif.errored (some STATUS_COMPLETE)) =
      ({ s with readyState := ReadyState.closed }, some CallbackCall.onComplete) := by
  simp [connStep, h]

theorem count_onComplete_toList (o : Option CallbackCall) :
    (o.toList.count CallbackCall.onComplete) =
      if o = some CallbackCall.onComplete then 1 else 0 := by
  cases o with
  | none => rfl
  | some c =>
      by_cases h : c = CallbackCall.onComplete
      · subst h; rfl
      · simp [Option.toList, List.count_singleton, h]

theorem connRun_count_onComplete (maxR : Nat) (L : List String) :
    ∀ (t : List ConnNotif) (s : ConnState),
      (connRun maxR L s t).2.count CallbackCall.onComplete ≤ 1 ∧
      ((connRun maxR L s t).1.readyState ≠ ReadyState.closed →
        (connRun maxR L s t).2.count CallbackCall.onComplete = 0) := by
  intro t
  induction t with
  | nil => intro s; simp [connRun]
  | cons n ns ih =>
      intro s
      simp only [connRun, List.count_append]
      rw [count_onComplete_toList]
      by_cases h : (connStep maxR L s n).2 = some CallbackCall.onComplete
      · have hclosed := (connStep_onComplete maxR L s n h).1
        rw [connRun_closed maxR L ns (connStep maxR L s n).1 hclosed]
        simp [h, hclosed]
      · simpa [h] using ih (connStep maxR L s n).1

theorem connRun_errors (maxR : Nat) (L : List String) (st : Nat)
    (hst : st ≠ STATUS_COMPLETE) (hm : 0 < maxR) :
    ∀ (j k : Nat) (rs : ReadyState), rs ≠ ReadyState.closed → k + j ≤ maxR →
      connRun maxR L { retries := some k, readyState := rs }
          (List.replicate j (ConnNotif.errored (some st))) =
        ({ retries := some (k + j),
           readyState := if j = 0 then rs else ReadyState.connecting },
         List.replicate j (CallbackCall.onError (some st))) := by
  intro j
  induction j with
  | zero => intro k rs hrs _; simp [connRun]
  | succ j ih =>
      intro k rs hrs hkj
      have hk : k < maxR := by omega
      have hstep :
          connStep maxR L { retries := some k, readyState := rs }
              (ConnNotif.errored (some st)) =
            ({ retries := some (k + 1), readyState := ReadyState.connecting },
             some (CallbackCall.onError (some st))) := by
        have h204 : (some st : Option Nat) ≠ some STATUS_COMPLETE := by
          simpa using hst
        simp [connStep, hrs, h204, jsLt, hm, hk]
      rw [List.replicate_succ]
      simp only [connRun, hstep]
      rw [ih (k + 1) ReadyState.connecting (by simp) (by omega)]
      have : k + 1 + j = k + (j + 1) := by omega
      rw [this]
      by_cases hj : j = 0 <;> simp [hj, List.replicate_succ]

/-! ## Claims about the resilient stream connection -/

/-- C3: for every connection created by `createServerSideEventStream`, when
the transport reports the status 204 signal the `oncomplete` callback is
invoked exactly once over the whole lifetime of the connection, and the
connection stops retrying: nothing at all happens on the connection after
that signal.  Stated over every history `t1` that has not already closed the
connection, every status-204 notification time, and every suffix `t2` of
subsequent transport activity; the final conjunct is the global
at-most-once bound for arbitrary traces. -/
theorem C3_oncomplete_exactly_once (maxR : Nat) (L : List String)
    (t1 t2 : List ConnNotif)
    (h : (connRun maxR L initConn t1).1.readyState ≠ ReadyState.closed) :
    (connRun maxR L initConn
        (t1 ++ [ConnNotif.errored (some STATUS_COMPLETE)])).1.readyState = ReadyState.closed ∧
    connRun maxR L initConn ((t1 ++ [ConnNotif.errored (some STATUS_COMPLETE)]) ++ t2) =
      connRun maxR L initConn (t1 ++ [ConnNotif.errored (some STATUS_COMPLETE)]) ∧
    (connRun maxR L initConn
        ((t1 ++ [ConnNotif.errored (some STATUS_COMPLETE)]) ++ t2)).2.count
        CallbackCall.onComplete = 1 ∧
    (∀ t : List ConnNotif,
      (connRun maxR L initConn t).2.count CallbackCall.onComplete ≤ 1) := by
  have hmid :
      connRun maxR L initConn (t1 ++ [ConnNotif.errored (some STATUS_COMPLETE)]) =
        (({ (connRun maxR L initConn t1).1 with readyState := ReadyState.closed } : ConnState),
         (connRun maxR L initConn t1).2 ++ [CallbackCall.onComplete]) := by
    rw [connRun_append]
    simp [connRun, connStep_onComplete_step maxR L (connRun maxR L initConn t1).1 h]
  have hcount0 := (connRun_count_onComplete maxR L t1 initConn).2 h
  have hclosed :
      (connRun maxR L initConn (t1 ++ [ConnNotif.errored (some STATUS_COMPLETE)])).1.readyState =
        ReadyState.closed := by
    rw [hmid]
  refine ⟨hclosed, ?_, ?_, fun t => (connRun_count_onComplete maxR L t initConn).1⟩
  · rw [connRun_append,
      connRun_closed maxR L t2
        (connRun maxR L initConn (t1 ++ [ConnNotif.errored (some STATUS_COMPLETE)])).1 hclosed]
    simp
  · rw [connRun_append,
      connRun_closed maxR L t2
        (connRun maxR L initConn (t1 ++ [ConnNotif.errored (some STATUS_COMPLETE)])).1 hclosed]
    simp [hmid, hcount0]

/-- Witness for C3 at a concrete input: one successful open, one message,
then the 204 signal and some further transport activity that is ignored. -/
theorem C3_oncomplete_exactly_once_witness :
    (connRun 30 ["Build"] initConn
        ([ConnNotif.opened, ConnNotif.message "Build" "b1"] ++
          [ConnNotif.errored (some STATUS_COMPLETE)])).1.readyState = ReadyState.closed ∧
    connRun 30 ["Build"] initConn
        (([ConnNotif.opened, ConnNotif.message "Build" "b1"] ++
          [ConnNotif.errored (some STATUS_COMPLETE)]) ++ [ConnNotif.opened]) =
      connRun 30 ["Build"] initConn
        ([ConnNotif.opened, ConnNotif.message "Build" "b1"] ++
          [ConnNotif.errored (some STATUS_COMPLETE)]) ∧
    (connRun 30 ["Build"] initConn
        (([ConnNotif.opened, ConnNotif.message "Build" "b1"] ++
          [ConnNotif.errored (some STATUS_COMPLETE)]) ++ [ConnNotif.opened])).2.count
        CallbackCall.onComplete = 1 ∧
    (∀ t : List ConnNotif,
      (connRun 30 ["Build"] initConn t).2.count CallbackCall.onComplete ≤ 1) :=
  C3_oncomplete_exactly_once 30 ["Build"]
    [ConnNotif.opened, ConnNotif.message "Build" "b1"] [ConnNotif.opened] (by decide)

/-- C4 counterexample: with `maxRetries = 1`, a connection that has opened
successfully and then receives `maxRetries` (= 1) status-bearing transient
errors with no intervening open has a retry counter that has reached
`maxRetries`, yet it is not closed, and a further callback (`onopen`) still
fires afterwards — refuting both that the connection closes once the counter
reaches `maxRetries` and that no further callbacks fire. -/
theorem C4_retry_exhaustion_counterexample :
    (connRun 1 [] initConn [ConnNotif.opened, ConnNotif.errored (some 500)]).1.retries = some 1 ∧
    (connRun 1 [] initConn
        [ConnNotif.opened, ConnNotif.errored (some 500)]).1.readyState ≠ ReadyState.closed ∧
    (connRun 1 [] initConn
        [ConnNotif.opened, ConnNotif.errored (some 500), ConnNotif.opened]).2 =
      [CallbackCall.onOpen, CallbackCall.onError (some 500), CallbackCall.onOpen] := by
  refine ⟨by decide, by decide, by decide⟩

/-- C4 as amended: closed states are terminal (a closed connection processes
nothing and fires no callbacks), and a connection that opens successfully and
then receives `maxRetries + 1` consecutive status-bearing transient errors
with no intervening open closes permanently during the last of those errors
(with the counter at `maxRetries`) and fires no further callbacks on any
subsequent transport activity. -/
theorem connRun_open_exhaust (maxR st : Nat) (L : List String) (hm : 0 < maxR)
    (hst : st ≠ STATUS_COMPLETE) :
    connRun maxR L initConn
        (ConnNotif.opened :: List.replicate (maxR + 1) (ConnNotif.errored (some st))) =
      (({ retries := some maxR, readyState := ReadyState.closed } : ConnState),
       CallbackCall.onOpen ::
         List.replicate (maxR + 1) (CallbackCall.onError (some st))) := by
  have hmz : maxR ≠ 0 := by omega
  have h204 : (some st : Option Nat) ≠ some STATUS_COMPLETE := by simpa using hst
  have htr : ConnNotif.opened ::
      List.replicate (maxR + 1) (ConnNotif.errored (some st)) =
      [ConnNotif.opened] ++
        (List.replicate maxR (ConnNotif.errored (some st)) ++
          [ConnNotif.errored (some st)]) := by
    rw [List.replicate_succ']
    simp
  have hA : connRun maxR L initConn [ConnNotif.opened] =
      (({ retries := some 0, readyState := ReadyState.isOpen } : ConnState),
       [CallbackCall.onOpen]) := by
    simp [connRun, connStep, initConn]
  have hB := connRun_errors maxR L st hst hm maxR 0 ReadyState.isOpen (by simp) (by omega)
  rw [if_neg hmz] at hB
  simp only [Nat.zero_add] at hB
  have hD : connRun maxR L
      ({ retries := some maxR, readyState := ReadyState.connecting } : ConnState)
      [ConnNotif.errored (some st)] =
      (({ retries := some maxR, readyState := ReadyState.closed } : ConnState),
       [CallbackCall.onError (some st)]) := by
    have hstep := connStep_errored maxR L
      ({ retries := some maxR, readyState := ReadyState.connecting } : ConnState)
      (some st) (by simp) h204
    rw [if_neg (by simp [jsLt])] at hstep
    simp [connRun, hstep]
  rw [htr, connRun_append, hA, connRun_append, hB, hD]
  rw [List.replicate_succ' maxR (CallbackCall.onError (some st))]
  simp

theorem C4_retry_exhaustion_amended :
    (∀ (maxR : Nat) (L : List String) (s : ConnState) (n : ConnNotif),
      s.readyState = ReadyState.closed → connStep maxR L s n = (s, none)) ∧
    (∀ (maxR : Nat) (L : List String) (s : ConnState) (t : List ConnNotif),
      s.readyState = ReadyState.closed → connRun maxR L s t = (s, [])) ∧
    (∀ (maxR st : Nat) (L : List String), 0 < maxR → st ≠ STATUS_COMPLETE →
      ∀ rest : List ConnNotif,
        connRun maxR L initConn
            ((ConnNotif.opened ::
              List.replicate (maxR + 1) (ConnNotif.errored (some st))) ++ rest) =
          (({ retries := some maxR, readyState := ReadyState.closed } : ConnState),
           CallbackCall.onOpen ::
             List.replicate (maxR + 1) (CallbackCall.onError (some st)))) := by
  refine ⟨connStep_closed, fun maxR L s t h => connRun_closed maxR L t s h, ?_⟩
  intro maxR st L hm hst rest
  rw [connRun_append, connRun_open_exhaust maxR st L hm hst,
    connRun_closed maxR L rest _ (by rfl)]
  simp

/-- Witness for the amended C4 with `maxRetries = 2`: the connection opens,
errors three times, closes permanently with the counter at 2, and ignores a
later open attempt. -/
theorem C4_retry_exhaustion_amended_witness :
    connStep 2 [] ({ retries := some 2, readyState := ReadyState.closed } : ConnState)
        ConnNotif.opened =
      (({ retries := some 2, readyState := ReadyState.closed } : ConnState), none) ∧
    connRun 2 [] ({ retries := some 2, readyState := ReadyState.closed } : ConnState)
        [ConnNotif.opened] =
      (({ retries := some 2, readyState := ReadyState.closed } : ConnState), []) ∧
    connRun 2 [] initConn
        ((ConnNotif.opened :: List.replicate 3 (ConnNotif.errored (some 500))) ++
          [ConnNotif.opened, ConnNotif.errored (some 500)]) =
      (({ retries := some 2, readyState := ReadyState.closed } : ConnState),
       CallbackCall.onOpen :: List.replicate 3 (CallbackCall.onError (some 500))) :=
  ⟨C4_retry_exhaustion_amended.1 2 [] _ ConnNotif.opened (by decide),
   C4_retry_exhaustion_amended.2.1 2 [] _ [ConnNotif.opened] (by decide),
   C4_retry_exhaustion_amended.2.2 2 500 [] (by decide) (by decide)
     [ConnNotif.opened, ConnNotif.errored (some 500)]⟩

/-- C6: the retry counter is reset to zero by every successful open; a
statusless error notification never changes the counter; any change of the
counter is either the reset performed by a successful open or an increment
performed by a status-bearing transient (non-204) error; and the concrete
scenario: after a successful open, `maxRetries - 1` status-bearing transient
errors followed by a success leave the counter at zero. -/
theorem C6_retry_counter_rules :
    (∀ (maxR : Nat) (L : List String) (s : ConnState),
      s.readyState ≠ ReadyState.closed →
        (connStep maxR L s ConnNotif.opened).1.retries = some 0 ∧
        (connStep maxR L s ConnNotif.opened).2 = some CallbackCall.onOpen) ∧
    (∀ (maxR : Nat) (L : List String) (s : ConnState),
      (connStep maxR L s (ConnNotif.errored none)).1.retries = s.retries) ∧
    (∀ (maxR : Nat) (L : List String) (s : ConnState) (n : ConnNotif),
      (connStep maxR L s n).1.retries ≠ s.retries →
        (n = ConnNotif.opened ∧ (connStep maxR L s n).1.retries = some 0) ∨
        (∃ st : Nat, n = ConnNotif.errored (some st) ∧ st ≠ STATUS_COMPLETE ∧
          (connStep maxR L s n).1.retries = s.retries.map (fun r => r + 1))) ∧
    (∀ (maxR : Nat) (L : List String), 1 ≤ maxR →
      connRun maxR L initConn
          ((ConnNotif.opened ::
            List.replicate (maxR - 1) (ConnNotif.errored (some 500))) ++
            [ConnNotif.opened]) =
        (({ retries := some 0, readyState := ReadyState.isOpen } : ConnState),
         (CallbackCall.onOpen ::
           List.replicate (maxR - 1) (CallbackCall.onError (some 500))) ++
           [CallbackCall.onOpen])) := by
  refine ⟨?_, ?_, ?_, ?_⟩
  · intro maxR L s h
    simp [connStep, h]
  · intro maxR L s
    by_cases hc : s.readyState = ReadyState.closed
    · simp [connStep_closed maxR L s _ hc]
    · rw [connStep_errored maxR L s none hc (by simp)]
      split <;> simp
  · intro maxR L s n h
    by_cases hc : s.readyState = ReadyState.closed
    · rw [connStep_closed maxR L s n hc] at h
      exact absurd rfl h
    · cases n with
      | opened => exact Or.inl ⟨rfl, by simp [connStep, hc]⟩
      | errored st =>
          by_cases h204 : st = some STATUS_COMPLETE
          · subst h204
            rw [connStep_onComplete_step maxR L s hc] at h
            exact absurd rfl h
          · rw [connStep_errored maxR L s st hc h204] at h ⊢
            cases st with
            | none => split at h <;> simp_all
            | some v =>
                refine Or.inr ⟨v, rfl, by simpa using h204, ?_⟩
                split at h <;> simp_all
      | message nm p =>
          simp only [connStep, hc, if_false] at h
          split at h <;> simp_all
  · intro maxR L hm
    have hA : connRun maxR L initConn [ConnNotif.opened] =
        (({ retries := some 0, readyState := ReadyState.isOpen } : ConnState),
         [CallbackCall.onOpen]) := by
      simp [connRun, connStep, initConn]
    have hB := connRun_errors maxR L 500 (by decide) (by omega) (maxR - 1) 0
      ReadyState.isOpen (by simp) (by omega)
    simp only [Nat.zero_add] at hB
    have hopen2 : ∀ rs : ReadyState, rs ≠ ReadyState.closed →
        connRun maxR L ({ retries := some (maxR - 1), readyState := rs } : ConnState)
          [ConnNotif.opened] =
        (({ retries := some 0, readyState := ReadyState.isOpen } : ConnState),
         [CallbackCall.onOpen]) := by
      intro rs hrs
      simp [connRun, connStep, hrs]
    have hrs2 : (if maxR - 1 = 0 then ReadyState.isOpen else ReadyState.connecting) ≠
        ReadyState.closed := by
      split <;> simp
    have htr : (ConnNotif.opened ::
        List.replicate (maxR - 1) (ConnNotif.errored (some 500))) ++ [ConnNotif.opened] =
        [ConnNotif.opened] ++
          (List.replicate (maxR - 1) (ConnNotif.errored (some 500)) ++ [ConnNotif.opened]) := by
      simp
    rw [htr, connRun_append, hA, connRun_append, hB, hopen2 _ hrs2]
    simp

/-- Witness for C6 at concrete inputs: an open from the initial state resets
the counter; a statusless error does not change it; an increment happens on a
status 500 error from a counter of zero; and with `maxRetries = 3`, open
followed by two 500 errors and another open ends with the counter at zero. -/
theorem C6_retry_counter_rules_witness :
    ((connStep 3 [] initConn ConnNotif.opened).1.retries = some 0 ∧
      (connStep 3 [] initConn ConnNotif.opened).2 = some CallbackCall.onOpen) ∧
    (connStep 3 []
        ({ retries := some 1, readyState := ReadyState.connecting } : ConnState)
        (ConnNotif.errored none)).1.retries = some 1 ∧
    (((ConnNotif.errored (some 500) : ConnNotif) = ConnNotif.opened ∧
        (connStep 3 []
            ({ retries := some 0, readyState := ReadyState.connecting } : ConnState)
            (ConnNotif.errored (some 500))).1.retries = some 0) ∨
      (∃ st : Nat, (ConnNotif.errored (some 500) : ConnNotif) = ConnNotif.errored (some st) ∧
        st ≠ STATUS_COMPLETE ∧
        (connStep 3 []
            ({ retries := some 0, readyState := ReadyState.connecting } : ConnState)
            (ConnNotif.errored (some 500))).1.retries =
          (some 0 : Option Nat).map (fun r => r + 1))) ∧
    connRun 3 [] initConn
        ((ConnNotif.opened :: List.replicate 2 (ConnNotif.errored (some 500))) ++
          [ConnNotif.opened]) =
      (({ retries := some 0, readyState := ReadyState.isOpen } : ConnState),
       (CallbackCall.onOpen :: List.replicate 2 (CallbackCall.onError (some 500))) ++
         [CallbackCall.onOpen]) :=
  ⟨C6_retry_counter_rules.1 3 [] initConn (by decide),
   C6_retry_counter_rules.2.1 3 []
     ({ retries := some 1, readyState := ReadyState.connecting } : ConnState),
   C6_retry_counter_rules.2.2.1 3 []
     ({ retries := some 0, readyState := ReadyState.connecting } : ConnState)
     (ConnNotif.errored (some 500)) (by decide),
   C6_retry_counter_rules.2.2.2 3 [] (by decide)⟩

/-- C10: the retry counter of a fresh connection is undefined (`none`), stays
undefined over any run that contains no successful open, and therefore the
very first transport error that arrives before any successful open — with or
without status information — closes the connection permanently, whatever
`maxRetries` is configured. -/
theorem C10_uninitialized_retry_counter :
    initConn.retries = none ∧
    (∀ (maxR : Nat) (L : List String) (t : List ConnNotif),
      (∀ p : ConnNotif, p ∈ t → p ≠ ConnNotif.opened) →
        (connRun maxR L initConn t).1.retries = none) ∧
    (∀ (maxR : Nat) (L : List String) (st : Option Nat), st ≠ some STATUS_COMPLETE →
      (connStep maxR L initConn (ConnNotif.errored st)).1 =
        ({ retries := none, readyState := ReadyState.closed } : ConnState)) := by
  have hstep : ∀ (maxR : Nat) (L : List String) (s : ConnState) (n : ConnNotif),
      s.retries = none → n ≠ ConnNotif.opened → (connStep maxR L s n).1.retries = none := by
    intro maxR L s n hr hn
    by_cases hc : s.readyState = ReadyState.closed
    · simp [connStep_closed maxR L s n hc, hr]
    · cases n with
      | opened => exact absurd rfl hn
      | errored st =>
          by_cases h204 : st = some STATUS_COMPLETE
          · subst h204
            simp [connStep_onComplete_step maxR L s hc, hr]
          · rw [connStep_errored maxR L s st hc h204]
            rw [hr]
            simp [jsLt]
      | message nm p =>
          simp only [connStep, hc, if_false]
          split <;> simp [hr]
  refine ⟨rfl, ?_, ?_⟩
  · intro maxR L t ht
    have : ∀ (t : List ConnNotif) (s : ConnState), s.retries = none →
        (∀ p : ConnNotif, p ∈ t → p ≠ ConnNotif.opened) →
        (connRun maxR L s t).1.retries = none := by
      intro t
      induction t with
      | nil => intro s hr _; exact hr
      | cons n ns ih =>
          intro s hr hmem
          simp only [connRun]
          exact ih (connStep maxR L s n).1
            (hstep maxR L s n hr (hmem n (by simp)))
            (fun p hp => hmem p (by simp [hp]))
    exact this t initConn rfl ht
  · intro maxR L st h204
    rw [connStep_errored maxR L initConn st (by simp [initConn]) h204]
    simp [initConn, jsLt]

/-- Witness for C10: a 30-retry connection (the configuration of the build
stream listener) whose first notifications are a statusless error closes at
once; the same holds for a status 500 first error. -/
theorem C10_uninitialized_retry_counter_witness :
    initConn.retries = none ∧
    (connRun 30 ["Build"] initConn
        [ConnNotif.errored (some 500), ConnNotif.errored none]).1.retries = none ∧
    (connStep 30 ["Build"] initConn (ConnNotif.errored none)).1 =
      ({ retries := none, readyState := ReadyState.closed } : ConnState) ∧
    (connStep 100 ["BuildEvent"] initConn (ConnNotif.errored (some 500))).1 =
      ({ retries := none, readyState := ReadyState.closed } : ConnState) :=
  ⟨C10_uninitialized_retry_counter.1,
   C10_uninitialized_retry_counter.2.1 30 ["Build"]
     [ConnNotif.errored (some 500), ConnNotif.errored none] (by decide),
   C10_uninitialized_retry_counter.2.2 30 ["Build"] none (by decide),
   C10_uninitialized_retry_counter.2.2 100 ["BuildEvent"] (some 500) (by decide)⟩

/-! ## Helper lemmas: the scheduler -/

theorem processPendingBuilds_le (s : SchedState)
    (h : s.numBuildsInProcess ≤ s.maxConcurrentBuildsToProcess) :
    (processPendingBuilds s).numBuildsInProcess ≤
      (processPendingBuilds s).maxConcurrentBuildsToProcess := by
  rcases hp : s.pendingBuilds with _ | ⟨b, rest⟩ <;>
    simp only [processPendingBuilds, hp]
  · exact h
  · split
    · simp only [processBuild]
      omega
    · exact h

theorem processPendingBuilds_max (s : SchedState) :
    (processPendingBuilds s).maxConcurrentBuildsToProcess =
      s.maxConcurrentBuildsToProcess := by
  rcases hp : s.pendingBuilds with _ | ⟨b, rest⟩ <;>
    simp only [processPendingBuilds, hp]
  split <;> simp [processBuild]

theorem schedStep_max (s : SchedState) (e : SchedEvent) :
    (schedStep s e).maxConcurrentBuildsToProcess = s.maxConcurrentBuildsToProcess := by
  cases e with
  | enqueue b =>
      simp only [schedStep, enqueue]
      rw [processPendingBuilds_max]
  | finishRelease => rfl
  | pump =>
      simp only [schedStep]
      rw [processPendingBuilds_max]

theorem schedStep_le (s : SchedState) (e : SchedEvent)
    (h : s.numBuildsInProcess ≤ s.maxConcurrentBuildsToProcess) :
    (schedStep s e).numBuildsInProcess ≤ (schedStep s e).maxConcurrentBuildsToProcess := by
  cases e with
  | enqueue b =>
      exact processPendingBuilds_le { s with pendingBuilds := s.pendingBuilds ++ [b] } h
  | finishRelease =>
      simp only [schedStep, finishedProcessingBuild]
      omega
  | pump => exact processPendingBuilds_le s h

theorem schedRun_le : ∀ (es : List SchedEvent) (s : SchedState),
    s.numBuildsInProcess ≤ s.maxConcurrentBuildsToProcess →
    (schedRun s es).numBuildsInProcess ≤ (schedRun s es).maxConcurrentBuildsToProcess := by
  intro es
  induction es with
  | nil => intro s h; exact h
  | cons e es ih => intro s h; exact ih (schedStep s e) (schedStep_le s e h)

theorem schedRun_max : ∀ (es : List SchedEvent) (s : SchedState),
    (schedRun s es).maxConcurrentBuildsToProcess = s.maxConcurrentBuildsToProcess := by
  intro es
  induction es with
  | nil => intro s; rfl
  | cons e es ih =>
      intro s
      rw [schedRun, ih (schedStep s e), schedStep_max]

theorem processPendingBuilds_order (s : SchedState) :
    (processPendingBuilds s).admitted ++ (processPendingBuilds s).pendingBuilds =
      s.admitted ++ s.pendingBuilds := by
  rcases hp : s.pendingBuilds with _ | ⟨b, rest⟩ <;>
    simp only [processPendingBuilds, hp]
  split
  · simp [processBuild]
  · rw [hp]

theorem schedStep_order (s : SchedState) (e : SchedEvent) :
    (schedStep s e).admitted ++ (schedStep s e).pendingBuilds =
      s.admitted ++ s.pendingBuilds ++ enqueuedOf [e] := by
  cases e with
  | enqueue b =>
      simp only [schedStep, enqueue]
      rw [processPendingBuilds_order]
      simp [enqueuedOf]
  | finishRelease => simp [schedStep, finishedProcessingBuild, enqueuedOf]
  | pump =>
      simp only [schedStep]
      rw [processPendingBuilds_order]
      simp [enqueuedOf]

theorem schedRun_order : ∀ (es : List SchedEvent) (s : SchedState),
    (schedRun s es).admitted ++ (schedRun s es).pendingBuilds =
      s.admitted ++ s.pendingBuilds ++ enqueuedOf es := by
  intro es
  induction es with
  | nil => intro s; simp [schedRun, enqueuedOf]
  | cons e es ih =>
      intro s
      rw [schedRun, ih (schedStep s e)]
      rw [schedStep_order]
      have : enqueuedOf (e :: es) = enqueuedOf [e] ++ enqueuedOf es := by
        cases e <;> simp [enqueuedOf]
      rw [this]
      simp [List.append_assoc]

/-! ## Claims about the scheduler -/

/-- C5: for every configured concurrency limit and every sequence of enqueue,
release and deferred-admission events — including bursts of more than the
limit — the number of builds simultaneously admitted to per-build processing
(`numBuildsInProcess`) never exceeds the limit. -/
theorem C5_bounded_concurrency (maxC : Nat) (es : List SchedEvent) :
    (schedRun (initSched (maxC : Int)) es).numBuildsInProcess ≤ (maxC : Int) := by
  have h0 : (initSched (maxC : Int)).numBuildsInProcess ≤
      (initSched (maxC : Int)).maxConcurrentBuildsToProcess := by
    simp [initSched]
  have := schedRun_le es (initSched (maxC : Int)) h0
  rwa [schedRun_max es (initSched (maxC : Int))] at this

/-- C7: an invocation of the admission attempt (`processPendingBuilds`) with
a non-empty queue and the admitted count below the limit removes exactly the
head of the queue, increments the admitted count and hands that build to the
build event processor; and over every event sequence the list of builds
handed over, followed by the still-pending queue, equals the list of builds
enqueued in arrival order — so admission is FIFO and no build is skipped
while an earlier one is queued. -/
theorem C7_fifo_admission :
    (∀ (s : SchedState) (b : String) (rest : List String),
      s.pendingBuilds = b :: rest →
      s.numBuildsInProcess < s.maxConcurrentBuildsToProcess →
      processPendingBuilds s =
        { s with pendingBuilds := rest,
                 numBuildsInProcess := s.numBuildsInProcess + 1,
                 admitted := s.admitted ++ [b] }) ∧
    (∀ (maxC : Int) (es : List SchedEvent),
      (schedRun (initSched maxC) es).admitted ++
          (schedRun (initSched maxC) es).pendingBuilds = enqueuedOf es) := by
  constructor
  · intro s b rest hp hlt
    simp [processPendingBuilds, hp, hlt, processBuild]
  · intro maxC es
    rw [schedRun_order es (initSched maxC)]
    simp [initSched]

/-- Witness for C7: a scheduler with limit 1 holding one pending build and a
free slot admits exactly that build, and a concrete burst of three enqueues
with one release keeps handed-over plus pending equal to the enqueue order. -/
theorem C7_fifo_admission_witness :
    processPendingBuilds
        ({ pendingBuilds := ["b1", "b2"], numBuildsInProcess := 0,
           maxConcurrentBuildsToProcess := 1, admitted := ["b0"] } : SchedState) =
      ({ pendingBuilds := ["b2"], numBuildsInProcess := 1,
         maxConcurrentBuildsToProcess := 1, admitted := ["b0", "b1"] } : SchedState) ∧
    (schedRun (initSched 2)
        [SchedEvent.enqueue "a", SchedEvent.enqueue "b", SchedEvent.enqueue "c",
         SchedEvent.finishRelease, SchedEvent.pump]).admitted ++
      (schedRun (initSched 2)
        [SchedEvent.enqueue "a", SchedEvent.enqueue "b", SchedEvent.enqueue "c",
         SchedEvent.finishRelease, SchedEvent.pump]).pendingBuilds =
      enqueuedOf
        [SchedEvent.enqueue "a", SchedEvent.enqueue "b", SchedEvent.enqueue "c",
         SchedEvent.finishRelease, SchedEvent.pump] :=
  ⟨C7_fifo_admission.1
      ({ pendingBuilds := ["b1", "b2"], numBuildsInProcess := 0,
         maxConcurrentBuildsToProcess := 1, admitted := ["b0"] } : SchedState)
      "b1" ["b2"] rfl (by decide),
   C7_fifo_admission.2 2
     [SchedEvent.enqueue "a", SchedEvent.enqueue "b", SchedEvent.enqueue "c",
      SchedEvent.finishRelease, SchedEvent.pump]⟩

/-! ## Helper lemmas: the handler registry -/

theorem jsStartsWith_on_iff (m t : String) :
    (jsStartsWith m "on" = true ∧ m.drop 2 = t) ↔ m = "on" ++ t := by
  have hlen : ("on" : String).length = 2 := by decide
  have hdlen : ("on" : String).data.length = 2 := by decide
  constructor
  · rintro ⟨h1, h2⟩
    have h1a : (m.take ("on" : String).length == ("on" : String)) = true := h1
    rw [hlen] at h1a
    have htake : m.take 2 = "on" := by exact_mod_cast (beq_iff_eq).1 h1a
    apply String.ext
    have hsplit : m.data = (m.take 2).data ++ (m.drop 2).data := by
      rw [String.data_take, String.data_drop, List.take_append_drop]
    rw [hsplit, htake, h2, String.data_append]
  · intro h
    subst h
    refine ⟨?_, ?_⟩
    · show (("on" ++ t).take ("on" : String).length == ("on" : String)) = true
      rw [hlen]
      refine (beq_iff_eq).2 ?_
      apply String.ext
      rw [String.data_take, String.data_append, ← hdlen, List.take_left]
    · apply String.ext
      rw [String.data_drop, String.data_append, List.drop_left' hdlen]

theorem mem_getHandledEventTypes (c : HandlerClass) (t : String) :
    t ∈ getHandledEventTypesForHandlerClass c ↔ ("on" ++ t) ∈ c.methods := by
  simp only [getHandledEventTypesForHandlerClass, List.mem_map, List.mem_filter]
  constructor
  · rintro ⟨m, ⟨hm, hsw⟩, hdrop⟩
    rw [← (jsStartsWith_on_iff m t).1 ⟨hsw, hdrop⟩]
    exact hm
  · intro h
    exact ⟨"on" ++ t, ⟨h, ((jsStartsWith_on_iff ("on" ++ t) t).2 rfl).1⟩,
      ((jsStartsWith_on_iff ("on" ++ t) t).2 rfl).2⟩

theorem mem_jsSet (l : List String) (t : String) : t ∈ jsSet l ↔ t ∈ l := by
  have : ∀ (l : List String) (acc : List String),
      t ∈ l.foldl (fun acc t2 => if t2 ∈ acc then acc else acc ++ [t2]) acc ↔
        t ∈ acc ∨ t ∈ l := by
    intro l
    induction l with
    | nil => intro acc; simp
    | cons x xs ih =>
        intro acc
        rw [List.foldl_cons, ih]
        by_cases hx : x ∈ acc
        · simp only [if_pos hx]
          constructor
          · rintro (h | h)
            · exact Or.inl h
            · exact Or.inr (List.mem_cons_of_mem x h)
          · rintro (h | h)
            · exact Or.inl h
            · rcases List.mem_cons.1 h with h | h
              · exact Or.inl (h ▸ hx)
              · exact Or.inr h
        · simp only [if_neg hx, List.mem_append, List.mem_singleton, List.mem_cons]
          tauto
  rw [jsSet, this l []]
  simp

theorem mem_getAllHandledEventTypes (classes : List HandlerClass) (t : String) :
    t ∈ getAllHandledEventTypes classes ↔
      ∃ c, c ∈ classes ∧ ("on" ++ t) ∈ c.methods := by
  rw [getAllHandledEventTypes, mem_jsSet]
  have : ∀ (cs : List HandlerClass) (acc : List String),
      t ∈ cs.foldl (fun acc c => acc ++ getHandledEventTypesForHandlerClass c) acc ↔
        t ∈ acc ∨ ∃ c, c ∈ cs ∧ t ∈ getHandledEventTypesForHandlerClass c := by
    intro cs
    induction cs with
    | nil => intro acc; simp
    | cons x xs ih =>
        intro acc
        rw [List.foldl_cons, ih]
        simp only [List.mem_append, List.mem_cons]
        constructor
        · rintro ((h | h) | ⟨c, hc, ht⟩)
          · exact Or.inl h
          · exact Or.inr ⟨x, Or.inl rfl, h⟩
          · exact Or.inr ⟨c, Or.inr hc, ht⟩
        · rintro (h | ⟨c, (hc | hc), ht⟩)
          · exact Or.inl (Or.inl h)
          · exact Or.inl (Or.inr (hc ▸ ht))
          · exact Or.inr ⟨c, hc, ht⟩
  rw [this classes []]
  simp only [List.not_mem_nil, false_or]
  constructor
  · rintro ⟨c, hc, ht⟩
    exact ⟨c, hc, (mem_getHandledEventTypes c t).1 ht⟩
  · rintro ⟨c, hc, ht⟩
    exact ⟨c, hc, (mem_getHandledEventTypes c t).2 ht⟩

theorem beq_false_of_ne {a b : String} (h : a ≠ b) : (a == b) = false := by
  cases htk : a == b
  · rfl
  · exact absurd (beq_iff_eq.1 htk) h

theorem lookup_map_update_self (t : String) (i : Nat) :
    ∀ hs : List (String × List Nat),
      (hs.map (fun p => if p.1 = t then (p.1, p.2 ++ [i]) else p)).lookup t =
        (hs.lookup t).map (fun v => v ++ [i]) := by
  intro hs
  induction hs with
  | nil => rfl
  | cons p ps ih =>
      obtain ⟨k, v⟩ := p
      by_cases hp : k = t
      · subst hp
        simp [List.lookup_cons, ih, beq_iff_eq]
      · have hne : ¬t = k := fun h => hp h.symm
        simp [List.lookup_cons, hp, beq_false_of_ne hne, ih]

theorem lookup_map_update_ne (t t2 : String) (i : Nat) (h : t2 ≠ t) :
    ∀ hs : List (String × List Nat),
      (hs.map (fun p => if p.1 = t then (p.1, p.2 ++ [i]) else p)).lookup t2 =
        hs.lookup t2 := by
  intro hs
  induction hs with
  | nil => rfl
  | cons p ps ih =>
      obtain ⟨k, v⟩ := p
      by_cases hp : k = t
      · subst hp
        simp [List.lookup_cons, beq_false_of_ne h, ih]
      · by_cases h2 : t2 = k
        · subst h2
          simp [List.lookup_cons, hp, beq_iff_eq]
        · simp [List.lookup_cons, hp, beq_false_of_ne h2, ih]

theorem lookup_append_assoc (t : String) :
    ∀ (l1 l2 : List (String × List Nat)),
      (l1 ++ l2).lookup t =
        match l1.lookup t with
        | some v => some v
        | none => l2.lookup t := by
  intro l1 l2
  induction l1 with
  | nil => simp [List.lookup]
  | cons p ps ih =>
      obtain ⟨k, v⟩ := p
      by_cases hp : t = k
      · subst hp
        simp [List.lookup_cons, beq_iff_eq]
      · simp [List.lookup_cons, beq_false_of_ne hp, ih]

theorem lookup_addHandler_self (hs : List (String × List Nat)) (t : String) (i : Nat) :
    (addHandler hs t i).lookup t = some (((hs.lookup t).getD []) ++ [i]) := by
  rw [addHandler]
  by_cases h : (hs.lookup t).isSome
  · rw [if_pos h, lookup_map_update_self]
    rcases Option.isSome_iff_exists.1 h with ⟨v, hv⟩
    rw [hv]
    rfl
  · rw [if_neg h]
    rw [lookup_append_assoc]
    have hn : hs.lookup t = none := Option.not_isSome_iff_eq_none.1 h
    rw [hn]
    simp [List.lookup_cons]

theorem lookup_addHandler_ne (hs : List (String × List Nat)) (t t2 : String) (i : Nat)
    (h : t2 ≠ t) : (addHandler hs t i).lookup t2 = hs.lookup t2 := by
  rw [addHandler]
  by_cases hsome : (hs.lookup t).isSome
  · rw [if_pos hsome, lookup_map_update_ne t t2 i h]
  · rw [if_neg hsome, lookup_append_assoc]
    cases hl : hs.lookup t2 with
    | none => simp [List.lookup_cons, beq_false_of_ne h]
    | some v => rfl

theorem extendEntry_append (o : Option (List Nat)) (l1 l2 : List Nat) :
    extendEntry (extendEntry o l1) l2 = extendEntry o (l1 ++ l2) := by
  rcases l1 with _ | ⟨x, xs⟩
  · simp [extendEntry]
  · rcases l2 with _ | ⟨y, ys⟩
    · simp [extendEntry]
    · simp [extendEntry, Option.getD]

theorem extendEntry_getD (o : Option (List Nat)) (l : List Nat) :
    (extendEntry o l).getD [] = o.getD [] ++ l := by
  rcases l with _ | ⟨x, xs⟩
  · simp [extendEntry]
  · simp [extendEntry]

theorem lookup_foldl_addHandler (i : Nat) (t : String) :
    ∀ (ts : List String) (H : List (String × List Nat)),
      ((ts.foldl (fun hs t2 => addHandler hs t2 i) H).lookup t) =
        extendEntry (H.lookup t) (List.replicate (ts.count t) i) := by
  intro ts
  induction ts with
  | nil => intro H; simp [extendEntry]
  | cons x xs ih =>
      intro H
      rw [List.foldl_cons, ih]
      by_cases hx : x = t
      · subst hx
        rw [lookup_addHandler_self]
        have hcount : List.count x (x :: xs) = List.count x xs + 1 := by
          simp [List.count_cons]
        rw [hcount, List.replicate_succ]
        have hrepl : (extendEntry (some ((H.lookup x).getD [] ++ [i]))
            (List.replicate (List.count x xs) i)) =
            extendEntry (extendEntry (H.lookup x) [i])
              (List.replicate (List.count x xs) i) := by
          rfl
        rw [hrepl, extendEntry_append]
        rfl
      · rw [lookup_addHandler_ne H x t i (fun h => hx h.symm)]
        have hcount : List.count t (x :: xs) = List.count t xs := by
          simp [List.count_cons, hx]
        rw [hcount]

theorem lookup_addHandlersForClass (H : List (String × List Nat)) (i : Nat)
    (c : HandlerClass) (t : String) :
    (addHandlersForClass H i c).lookup t =
      extendEntry (H.lookup t) (classContribution i c t) := by
  rw [addHandlersForClass, classContribution]
  by_cases hcomp : c.methods.contains "complete" = true
  · by_cases ht : t = "complete"
    · subst ht
      rw [if_pos hcomp, if_pos ⟨rfl, hcomp⟩, lookup_addHandler_self,
        lookup_foldl_addHandler, ← extendEntry_append]
      rfl
    · have hand : ¬("complete" = t ∧ c.methods.contains "complete" = true) :=
        fun hh => ht hh.1.symm
      have hand2 : ¬(t = "complete" ∧ c.methods.contains "complete" = true) :=
        fun hh => ht hh.1
      rw [if_pos hcomp, if_neg hand2, lookup_addHandler_ne _ _ _ _ ht,
        lookup_foldl_addHandler]
      simp
  · have hand2 : ¬(t = "complete" ∧ c.methods.contains "complete" = true) :=
      fun hh => hcomp hh.2
    rw [if_neg hcomp, if_neg hand2, lookup_foldl_addHandler]
    simp

theorem lookup_createBuildEventHandlersAux (t : String) :
    ∀ (classes : List HandlerClass) (H : List (String × List Nat)) (i : Nat),
      (createBuildEventHandlersAux H classes i).lookup t =
        extendEntry (H.lookup t) (contributionsFrom classes i t) := by
  intro classes
  induction classes with
  | nil => intro H i; simp [createBuildEventHandlersAux, contributionsFrom, extendEntry]
  | cons c rest ih =>
      intro H i
      rw [createBuildEventHandlersAux, ih, lookup_addHandlersForClass,
        contributionsFrom, extendEntry_append]

theorem lookup_createBuildEventHandlers (classes : List HandlerClass) (t : String) :
    (createBuildEventHandlers classes).lookup t =
      extendEntry none (contributionsFrom classes 0 t) := by
  rw [createBuildEventHandlers, lookup_createBuildEventHandlersAux]
  rfl

theorem mem_classContribution (i : Nat) (c : HandlerClass) (t : String) (j : Nat) :
    j ∈ classContribution i c t ↔
      (j = i ∧ (("on" ++ t) ∈ c.methods ∨
        (t = "complete" ∧ c.methods.contains "complete" = true))) := by
  by_cases hcond : (t = "complete" ∧ c.methods.contains "complete" = true)
  · rw [classContribution, if_pos hcond, List.mem_append, List.mem_singleton]
    constructor
    · rintro (h | h)
      · exact ⟨(List.mem_replicate.1 h).2, Or.inr hcond⟩
      · exact ⟨h, Or.inr hcond⟩
    · rintro ⟨hj, _⟩
      exact Or.inr hj
  · rw [classContribution, if_neg hcond, List.append_nil]
    constructor
    · intro h
      rcases List.mem_replicate.1 h with ⟨hn, hj⟩
      have ht : t ∈ getHandledEventTypesForHandlerClass c := by
        by_contra hmem
        exact hn (List.count_eq_zero.2 hmem)
      exact ⟨hj, Or.inl ((mem_getHandledEventTypes c t).1 ht)⟩
    · rintro ⟨hj, hm | hc⟩
      · subst hj
        refine List.mem_replicate.2 ⟨?_, rfl⟩
        intro h0
        exact (List.count_eq_zero.1 h0) ((mem_getHandledEventTypes c t).2 hm)
      · exact absurd hc hcond

theorem mem_contributionsFrom (t : String) :
    ∀ (classes : List HandlerClass) (i j : Nat),
      j ∈ contributionsFrom classes i t ↔
        ∃ d c, classes.get? d = some c ∧ j = i + d ∧
          (("on" ++ t) ∈ c.methods ∨
            (t = "complete" ∧ c.methods.contains "complete" = true)) := by
  intro classes
  induction classes with
  | nil => intro i j; simp [contributionsFrom]
  | cons c rest ih =>
      intro i j
      rw [contributionsFrom, List.mem_append, mem_classContribution, ih]
      constructor
      · rintro (⟨hj, hp⟩ | ⟨d, c2, hget, hj, hp⟩)
        · exact ⟨0, c, rfl, by omega, hp⟩
        · exact ⟨d + 1, c2, by simpa using hget, by omega, hp⟩
      · rintro ⟨d, c2, hget, hj, hp⟩
        cases d with
        | zero =>
            left
            have hc : some c = some c2 := by simpa using hget
            rcases Option.some.injEq .. ▸ hc with rfl
            exact ⟨by omega, by simpa using hp⟩
        | succ d =>
            right
            exact ⟨d, c2, by simpa using hget, by omega, hp⟩

theorem lookup_isSome_iff_mem_keys (t : String) :
    ∀ A : List (String × List Nat), (A.lookup t).isSome = true ↔ t ∈ A.map Prod.fst := by
  intro A
  induction A with
  | nil => simp [List.lookup]
  | cons p ps ih =>
      obtain ⟨k, v⟩ := p
      by_cases hp : t = k
      · subst hp
        simp [List.lookup_cons]
      · simp [List.lookup_cons, beq_false_of_ne hp, ih, hp]

theorem extendEntry_none_isSome (l : List Nat) :
    ((extendEntry none l).isSome = true) ↔ l ≠ [] := by
  cases l <;> simp [extendEntry]

theorem extendEntry_none_ne_nil (l : List Nat) (h : l ≠ []) :
    extendEntry none l = some l := by
  cases l with
  | nil => exact absurd rfl h
  | cons x xs => simp [extendEntry]

theorem union_ne_complete (classes : List HandlerClass)
    (hP : ∀ c ∈ classes, "oncomplete" ∉ c.methods) (t : String)
    (ht : t ∈ getAllHandledEventTypes classes) : t ≠ "complete" := by
  intro he
  subst he
  rcases (mem_getAllHandledEventTypes classes "complete").1 ht with ⟨c, hc, hm⟩
  have hoc : ("on" ++ "complete" : String) = "oncomplete" := by decide
  rw [hoc] at hm
  exact hP c hc hm

theorem keys_minus_complete (classes : List HandlerClass)
    (hP : ∀ c ∈ classes, "oncomplete" ∉ c.methods) (t : String) :
    (t ∈ (createBuildEventHandlers classes).map Prod.fst ∧ t ≠ "complete") ↔
      t ∈ getAllHandledEventTypes classes := by
  constructor
  · rintro ⟨hk, hne⟩
    have hsome : ((createBuildEventHandlers classes).lookup t).isSome = true :=
      (lookup_isSome_iff_mem_keys t _).2 hk
    rw [lookup_createBuildEventHandlers] at hsome
    have hnil : contributionsFrom classes 0 t ≠ [] :=
      (extendEntry_none_isSome _).1 hsome
    rcases List.exists_mem_of_ne_nil _ hnil with ⟨j, hj⟩
    rcases (mem_contributionsFrom t classes 0 j).1 hj with ⟨d, c, hget, hjd, hp | hpc⟩
    · exact (mem_getAllHandledEventTypes classes t).2 ⟨c, List.get?_mem hget, hp⟩
    · exact absurd hpc.1 hne
  · intro hu
    have hne := union_ne_complete classes hP t hu
    rcases (mem_getAllHandledEventTypes classes t).1 hu with ⟨c, hc, hm⟩
    rcases List.mem_iff_get?.1 hc with ⟨d, hget⟩
    have hj : (0 + d) ∈ contributionsFrom classes 0 t :=
      (mem_contributionsFrom t classes 0 (0 + d)).2 ⟨d, c, hget, rfl, Or.inl hm⟩
    have hnil : contributionsFrom classes 0 t ≠ [] := by
      intro h0
      rw [h0] at hj
      exact (List.not_mem_nil _) hj
    have hsome := (extendEntry_none_isSome (contributionsFrom classes 0 t)).2 hnil
    rw [← lookup_createBuildEventHandlers] at hsome
    exact ⟨(lookup_isSome_iff_mem_keys t _).1 hsome, hne⟩

/-! ## Claims about the handler registry -/

/-- C8 counterexample: for the observer type list whose one class declares an
operation named `oncomplete`, the discovered union of event types is
`[complete]` — and that is exactly what the subscription URL requests — but
the keys of the per-build handler map minus the reserved finalize key form
the empty set, so the requested ids are NOT the handler map keys minus the
reserved key, refuting the final clause of the claim at this input. -/
theorem C8_discovery_counterexample :
    getAllHandledEventTypes [{ methods := ["constructor", "oncomplete"] }] = ["complete"] ∧
    (createBuildEventHandlers
        [{ methods := ["constructor", "oncomplete"] }]).map Prod.fst = ["complete"] ∧
    ¬(("complete" ∈ (createBuildEventHandlers
          [{ methods := ["constructor", "oncomplete"] }]).map Prod.fst ∧
        ("complete" : String) ≠ "complete") ↔
      "complete" ∈ getAllHandledEventTypes [{ methods := ["constructor", "oncomplete"] }]) ∧
    createBuildEventStreamUrl "s" [{ methods := ["constructor", "oncomplete"] }] "b" =
      "s/build-export/v1/build/b/events?eventTypes=complete" := by
  refine ⟨by decide, by decide, by decide, by decide⟩

/-- C8 as amended: the event types discovered for a handler class are exactly
the suffixes after `on` of its `on`-prefixed operations; the process-wide set
is their union over the configured classes; every per-build subscription URL
has the documented form with the requested ids being exactly that union; and
— provided no observer type declares an operation literally named
`oncomplete` — the union coincides with the keys of the per-build handler map
minus the reserved `complete` key. -/
theorem C8_event_type_discovery :
    (∀ (c : HandlerClass) (t : String),
      t ∈ getHandledEventTypesForHandlerClass c ↔ ("on" ++ t) ∈ c.methods) ∧
    (∀ (classes : List HandlerClass) (t : String),
      t ∈ getAllHandledEventTypes classes ↔
        ∃ c, c ∈ classes ∧ ("on" ++ t) ∈ c.methods) ∧
    (∀ (serverUrl : String) (classes : List HandlerClass) (buildId : String),
      ∃ ids : List String,
        createBuildEventStreamUrl serverUrl classes buildId =
          serverUrl ++ "/build-export/v1/build/" ++ buildId ++ "/events?eventTypes=" ++
            String.intercalate "," ids ∧
        ∀ t, t ∈ ids ↔ ∃ c, c ∈ classes ∧ ("on" ++ t) ∈ c.methods) ∧
    (∀ classes : List HandlerClass, (∀ c ∈ classes, "oncomplete" ∉ c.methods) →
      ∀ t, (t ∈ (createBuildEventHandlers classes).map Prod.fst ∧ t ≠ "complete") ↔
        t ∈ getAllHandledEventTypes classes) :=
  ⟨mem_getHandledEventTypes, mem_getAllHandledEventTypes,
   fun _su classes _bi =>
     ⟨getAllHandledEventTypes classes, rfl,
      fun t => mem_getAllHandledEventTypes classes t⟩,
   keys_minus_complete⟩

/-- Witness for C8 at the configuration of the sample. -/
theorem C8_event_type_discovery_witness :
    ("BuildStarted" ∈ getHandledEventTypesForHandlerClass BuildDurationEventsHandler ↔
      ("on" ++ "BuildStarted") ∈ BuildDurationEventsHandler.methods) ∧
    ("TaskFinished" ∈ getAllHandledEventTypes BUILD_EVENT_HANDLERS ↔
      ∃ c, c ∈ BUILD_EVENT_HANDLERS ∧ ("on" ++ "TaskFinished") ∈ c.methods) ∧
    (∃ ids : List String,
      createBuildEventStreamUrl "https://localhost:5050" BUILD_EVENT_HANDLERS "b1" =
        "https://localhost:5050" ++ "/build-export/v1/build/" ++ "b1" ++
          "/events?eventTypes=" ++ String.intercalate "," ids ∧
      ∀ t, t ∈ ids ↔ ∃ c, c ∈ BUILD_EVENT_HANDLERS ∧ ("on" ++ t) ∈ c.methods) ∧
    (("TaskFinished" ∈ (createBuildEventHandlers BUILD_EVENT_HANDLERS).map Prod.fst ∧
        ("TaskFinished" : String) ≠ "complete") ↔
      "TaskFinished" ∈ getAllHandledEventTypes BUILD_EVENT_HANDLERS) :=
  ⟨C8_event_type_discovery.1 BuildDurationEventsHandler "BuildStarted",
   C8_event_type_discovery.2.1 BUILD_EVENT_HANDLERS "TaskFinished",
   C8_event_type_discovery.2.2.1 "https://localhost:5050" BUILD_EVENT_HANDLERS "b1",
   C8_event_type_discovery.2.2.2 BUILD_EVENT_HANDLERS (by decide) "TaskFinished"⟩

theorem dispatch_unhandled (classes : List HandlerClass) (t : String)
    (ht : t ∉ getAllHandledEventTypes classes) :
    dispatchBuildEvent classes t = some [] := by
  have hcont : (getAllHandledEventTypes classes).contains t = false := by
    simpa using ht
  simp only [dispatchBuildEvent, hcont]
  rfl

theorem dispatch_handled (classes : List HandlerClass)
    (hP : ∀ c ∈ classes, "oncomplete" ∉ c.methods) (t : String)
    (ht : t ∈ getAllHandledEventTypes classes) :
    ∃ hs, (createBuildEventHandlers classes).lookup t = some hs ∧ hs ≠ [] ∧
      (∀ j, j ∈ hs → ∃ c, classes.get? j = some c ∧ ("on" ++ t) ∈ c.methods) ∧
      dispatchBuildEvent classes t = some (hs.map (fun j => (j, "on" ++ t))) := by
  have hne := union_ne_complete classes hP t ht
  rcases (mem_getAllHandledEventTypes classes t).1 ht with ⟨c0, hc0, hm0⟩
  rcases List.mem_iff_get?.1 hc0 with ⟨d0, hget0⟩
  have hj0 : (0 + d0) ∈ contributionsFrom classes 0 t :=
    (mem_contributionsFrom t classes 0 (0 + d0)).2 ⟨d0, c0, hget0, rfl, Or.inl hm0⟩
  have hnil : contributionsFrom classes 0 t ≠ [] := by
    intro h0
    rw [h0] at hj0
    exact (List.not_mem_nil _) hj0
  have hlookup : (createBuildEventHandlers classes).lookup t =
      some (contributionsFrom classes 0 t) := by
    rw [lookup_createBuildEventHandlers, extendEntry_none_ne_nil _ hnil]
  have hmemall : ∀ j, j ∈ contributionsFrom classes 0 t →
      ∃ c, classes.get? j = some c ∧ ("on" ++ t) ∈ c.methods := by
    intro j hj
    rcases (mem_contributionsFrom t classes 0 j).1 hj with ⟨d, c, hget, hjd, hp | hpc⟩
    · refine ⟨c, ?_, hp⟩
      rw [hjd]
      simpa using hget
    · exact absurd hpc.1 hne
  refine ⟨contributionsFrom classes 0 t, hlookup, hnil, hmemall, ?_⟩
  have hcont : (getAllHandledEventTypes classes).contains t = true := by simpa using ht
  have hall : (contributionsFrom classes 0 t).all (fun i =>
      match classes.get? i with
      | some c => c.methods.contains ("on" ++ t)
      | none => false) = true := by
    rw [List.all_eq_true]
    intro j hj
    rcases hmemall j hj with ⟨c, hget, hm⟩
    simp only [hget]
    simpa using hm
  have hstep : dispatchBuildEvent classes t =
      if ((contributionsFrom classes 0 t).all (fun i =>
          match classes.get? i with
          | some c => c.methods.contains ("on" ++ t)
          | none => false)) = true then
        some ((contributionsFrom classes 0 t).map (fun i => (i, "on" ++ t)))
      else none := by
    simp only [dispatchBuildEvent]
    rw [if_pos hcont, hlookup]
  rw [hstep, if_pos hall]

/-- C9: an incoming build event whose type is handled by no observer (not in
the guard set) is dispatched to no observer instance and processing does not
fail; and — for observer types following the capability contract, i.e. with
no operation literally named `oncomplete`, as the configured classes of the
sample do — an event with a handled type always indexes a defined, non-empty
handler list each of whose instances declares the `on<EventType>` operation,
the dispatch invokes that operation on every instance of the list in list
order, and the guard set coincides with the per-build handler map keys minus
the reserved finalize key. -/
theorem C9_event_dispatch :
    (∀ (classes : List HandlerClass) (t : String),
      t ∉ getAllHandledEventTypes classes → dispatchBuildEvent classes t = some []) ∧
    (∀ classes : List HandlerClass, (∀ c ∈ classes, "oncomplete" ∉ c.methods) →
      (∀ t, t ∈ getAllHandledEventTypes classes →
        ∃ hs, (createBuildEventHandlers classes).lookup t = some hs ∧ hs ≠ [] ∧
          (∀ j, j ∈ hs → ∃ c, classes.get? j = some c ∧ ("on" ++ t) ∈ c.methods) ∧
          dispatchBuildEvent classes t = some (hs.map (fun j => (j, "on" ++ t)))) ∧
      (∀ t, (t ∈ (createBuildEventHandlers classes).map Prod.fst ∧ t ≠ "complete") ↔
        t ∈ getAllHandledEventTypes classes)) :=
  ⟨dispatch_unhandled,
   fun classes hP => ⟨dispatch_handled classes hP, keys_minus_complete classes hP⟩⟩

/-- Witness for C9 at the configuration of the sample: the unrequested type
`Nope` is ignored without failure, and `TaskFinished` dispatches to the
non-empty list of interested instances. -/
theorem C9_event_dispatch_witness :
    dispatchBuildEvent BUILD_EVENT_HANDLERS "Nope" = some [] ∧
    (∃ hs, (createBuildEventHandlers BUILD_EVENT_HANDLERS).lookup "TaskFinished" =
        some hs ∧ hs ≠ [] ∧
      (∀ j, j ∈ hs → ∃ c, BUILD_EVENT_HANDLERS.get? j = some c ∧
        ("on" ++ "TaskFinished") ∈ c.methods) ∧
      dispatchBuildEvent BUILD_EVENT_HANDLERS "TaskFinished" =
        some (hs.map (fun j => (j, "on" ++ "TaskFinished")))) ∧
    (("BuildStarted" ∈ (createBuildEventHandlers BUILD_EVENT_HANDLERS).map Prod.fst ∧
        ("BuildStarted" : String) ≠ "complete") ↔
      "BuildStarted" ∈ getAllHandledEventTypes BUILD_EVENT_HANDLERS) :=
  ⟨C9_event_dispatch.1 BUILD_EVENT_HANDLERS "Nope" (by decide),
   (C9_event_dispatch.2 BUILD_EVENT_HANDLERS (by decide)).1 "TaskFinished" (by decide),
   (C9_event_dispatch.2 BUILD_EVENT_HANDLERS (by decide)).2 "BuildStarted"⟩

/-! ## Helper lemmas: per-build processing -/

theorem buildStep_crashed (classes : List HandlerClass) (m : Nat) (s : BuildRunState)
    (n : ConnNotif) (h : s.crashed = true) : buildStep classes m s n = s := by
  simp [buildStep, h]

theorem buildStep_closed (classes : List HandlerClass) (m : Nat) (s : BuildRunState)
    (n : ConnNotif) (h : s.conn.readyState = ReadyState.closed) :
    buildStep classes m s n = s := by
  obtain ⟨conn, d, cc, r, cr⟩ := s
  cases cr
  · simp [buildStep, connStep_closed m ["BuildEvent"] conn n h]
  · simp [buildStep]

theorem buildRun_crashed (classes : List HandlerClass) (m : Nat) :
    ∀ (t : List ConnNotif) (s : BuildRunState), s.crashed = true →
      buildRun classes m s t = s := by
  intro t
  induction t with
  | nil => intro s _; rfl
  | cons n ns ih =>
      intro s h
      rw [buildRun, buildStep_crashed classes m s n h]
      exact ih s h

theorem buildRun_closed (classes : List HandlerClass) (m : Nat) :
    ∀ (t : List ConnNotif) (s : BuildRunState), s.conn.readyState = ReadyState.closed →
      buildRun classes m s t = s := by
  intro t
  induction t with
  | nil => intro s _; rfl
  | cons n ns ih =>
      intro s h
      rw [buildRun, buildStep_closed classes m s n h]
      exact ih s h

theorem buildRun_append (classes : List HandlerClass) (m : Nat) :
    ∀ (t1 t2 : List ConnNotif) (s : BuildRunState),
      buildRun classes m s (t1 ++ t2) = buildRun classes m (buildRun classes m s t1) t2 := by
  intro t1
  induction t1 with
  | nil => intro t2 s; rfl
  | cons n ns ih =>
      intro t2 s
      rw [List.cons_append, buildRun, buildRun, ih]

theorem buildStep_no204 (classes : List HandlerClass) (m : Nat) (s : BuildRunState)
    (n : ConnNotif) (hn : n ≠ ConnNotif.errored (some STATUS_COMPLETE)) :
    (buildStep classes m s n).completeCalls = s.completeCalls ∧
    (buildStep classes m s n).releaseCalled = s.releaseCalled := by
  by_cases hcr : s.crashed
  · rw [buildStep_crashed classes m s n hcr]
    exact ⟨rfl, rfl⟩
  · rcases hp : (connStep m ["BuildEvent"] s.conn n).2 with _ | c
    · simp [buildStep, hcr, hp]
    · cases c with
      | onOpen => simp [buildStep, hcr, hp]
      | onError st => simp [buildStep, hcr, hp]
      | onComplete => exact absurd (connStep_onComplete m ["BuildEvent"] s.conn n hp).2 hn
      | onEvent nm payload =>
          rcases hd : dispatchBuildEvent classes payload with _ | ds <;>
            simp [buildStep, hcr, hp, hd]

theorem buildRun_no204 (classes : List HandlerClass) (m : Nat) :
    ∀ (t : List ConnNotif) (s : BuildRunState),
      (∀ n ∈ t, n ≠ ConnNotif.errored (some STATUS_COMPLETE)) →
      (buildRun classes m s t).completeCalls = s.completeCalls ∧
      (buildRun classes m s t).releaseCalled = s.releaseCalled := by
  intro t
  induction t with
  | nil => intro s _; exact ⟨rfl, rfl⟩
  | cons n ns ih =>
      intro s h
      rw [buildRun]
      have hstep := buildStep_no204 classes m s n (h n (by simp))
      have hrest := ih (buildStep classes m s n) (fun p hp => h p (by simp [hp]))
      exact ⟨hrest.1.trans hstep.1, hrest.2.trans hstep.2⟩

theorem mem_eligibleCompleteAux :
    ∀ (classes : List HandlerClass) (i j : Nat),
      j ∈ eligibleCompleteAux classes i ↔
        ∃ d c, classes.get? d = some c ∧ j = i + d ∧
          c.methods.contains "complete" = true := by
  intro classes
  induction classes with
  | nil => intro i j; simp [eligibleCompleteAux]
  | cons c rest ih =>
      intro i j
      rw [eligibleCompleteAux, List.mem_append, ih]
      constructor
      · rintro (h | ⟨d, c2, hget, hj, hcc⟩)
        · by_cases hc : c.methods.contains "complete" = true
          · rw [if_pos hc, List.mem_singleton] at h
            exact ⟨0, c, rfl, by omega, hc⟩
          · rw [if_neg hc] at h
            exact absurd h (List.not_mem_nil j)
        · exact ⟨d + 1, c2, by simpa using hget, by omega, hcc⟩
      · rintro ⟨d, c2, hget, hj, hcc⟩
        cases d with
        | zero =>
            left
            have hc2 : c = c2 := by simpa using hget
            subst hc2
            rw [if_pos hcc, List.mem_singleton]
            omega
        | succ d =>
            right
            exact ⟨d, c2, by simpa using hget, by omega, hcc⟩

theorem eligibleCompleteAux_ge :
    ∀ (classes : List HandlerClass) (i j : Nat),
      j ∈ eligibleCompleteAux classes i → i ≤ j := by
  intro classes
  induction classes with
  | nil => intro i j h; simp [eligibleCompleteAux] at h
  | cons c rest ih =>
      intro i j h
      rw [eligibleCompleteAux, List.mem_append] at h
      rcases h with h | h
      · by_cases hc : c.methods.contains "complete" = true
        · rw [if_pos hc, List.mem_singleton] at h
          omega
        · rw [if_neg hc] at h
          exact absurd h (List.not_mem_nil j)
      · have := ih (i + 1) j h
        omega

theorem eligibleCompleteAux_count_le_one :
    ∀ (classes : List HandlerClass) (i j : Nat),
      (eligibleCompleteAux classes i).count j ≤ 1 := by
  intro classes
  induction classes with
  | nil => intro i j; simp [eligibleCompleteAux]
  | cons c rest ih =>
      intro i j
      rw [eligibleCompleteAux, List.count_append]
      by_cases hj : j = i
      · subst hj
        have hnot : j ∉ eligibleCompleteAux rest (j + 1) := by
          intro h
          have := eligibleCompleteAux_ge rest (j + 1) j h
          omega
        rw [List.count_eq_zero.2 hnot]
        by_cases hc : c.methods.contains "complete" = true
        · rw [if_pos hc]
          simp
        · rw [if_neg hc]
          simp
      · have h0 : List.count j
            (if c.methods.contains "complete" = true then [i] else []) = 0 := by
          by_cases hc : c.methods.contains "complete" = true
          · rw [if_pos hc]
            exact List.count_eq_zero.2 (by simp [hj])
          · rw [if_neg hc]
            rfl
        rw [h0]
        simpa using ih (i + 1) j

theorem eligibleCompleteAux_length :
    ∀ (classes : List HandlerClass) (i : Nat),
      (eligibleCompleteAux classes i).length =
        (classes.filter (fun c => c.methods.contains "complete")).length := by
  intro classes
  induction classes with
  | nil => intro i; rfl
  | cons c rest ih =>
      intro i
      rw [eligibleCompleteAux, List.length_append, List.filter_cons]
      by_cases hc : c.methods.contains "complete" = true
      · rw [if_pos hc, if_pos hc]
        simp [ih (i + 1)]
        omega
      · rw [if_neg hc, if_neg hc]
        simpa using ih (i + 1)

theorem count_eligibleComplete (classes : List HandlerClass) (j : Nat) :
    (eligibleComplete classes).count j =
      if ((classes.get? j).map (fun c => c.methods.contains "complete")).getD false = true
      then 1 else 0 := by
  rw [eligibleComplete]
  by_cases hcond :
      ((classes.get? j).map (fun c => c.methods.contains "complete")).getD false = true
  · rw [if_pos hcond]
    rcases hget : classes.get? j with _ | c
    · rw [hget] at hcond
      simp at hcond
    · rw [hget] at hcond
      simp only [Option.map_some', Option.getD_some] at hcond
      have hmem : j ∈ eligibleCompleteAux classes 0 :=
        (mem_eligibleCompleteAux classes 0 j).2 ⟨j, c, hget, by omega, hcond⟩
      have h1 : 0 < (eligibleCompleteAux classes 0).count j := List.count_pos_iff.2 hmem
      have h2 := eligibleCompleteAux_count_le_one classes 0 j
      omega
  · rw [if_neg hcond]
    rw [List.count_eq_zero]
    intro hmem
    rcases (mem_eligibleCompleteAux classes 0 j).1 hmem with ⟨d, c, hget, hj, hcc⟩
    rw [show j = d by omega] at hcond
    rw [hget] at hcond
    simp at hcond
    exact hcond (by simpa using hcc)

theorem contributionsFrom_complete :
    ∀ classes : List HandlerClass, (∀ c ∈ classes, "oncomplete" ∉ c.methods) →
      ∀ i, contributionsFrom classes i "complete" = eligibleCompleteAux classes i := by
  intro classes
  induction classes with
  | nil => intro _ i; rfl
  | cons c rest ih =>
      intro hP i
      rw [contributionsFrom, eligibleCompleteAux,
        ih (fun c2 hc2 => hP c2 (List.mem_cons_of_mem c hc2))]
      have hnotin : "complete" ∉ getHandledEventTypesForHandlerClass c := by
        intro h
        have hmm := (mem_getHandledEventTypes c "complete").1 h
        have hoc : ("on" ++ "complete" : String) = "oncomplete" := by decide
        rw [hoc] at hmm
        exact hP c (List.mem_cons_self c rest) hmm
      have hcount : (getHandledEventTypesForHandlerClass c).count "complete" = 0 :=
        List.count_eq_zero.2 hnotin
      rw [classContribution, hcount]
      by_cases hc : c.methods.contains "complete" = true
      · simp [hc]
      · simp [hc]

theorem lookup_complete_eq (classes : List HandlerClass)
    (hP : ∀ c ∈ classes, "oncomplete" ∉ c.methods) :
    (createBuildEventHandlers classes).lookup "complete" =
      extendEntry none (eligibleComplete classes) := by
  rw [lookup_createBuildEventHandlers, contributionsFrom_complete classes hP 0]
  rfl

theorem extendEntry_none_getD (l : List Nat) : (extendEntry none l).getD [] = l := by
  cases l <;> simp [extendEntry]

theorem buildRun_completeCalls_structure (classes : List HandlerClass) (m : Nat) :
    ∀ (t : List ConnNotif) (s : BuildRunState),
      (buildRun classes m s t).completeCalls = s.completeCalls ∨
      (buildRun classes m s t).completeCalls =
        s.completeCalls ++ ((createBuildEventHandlers classes).lookup "complete").getD [] := by
  intro t
  induction t with
  | nil => intro s; left; rfl
  | cons n ns ih =>
      intro s
      rw [buildRun]
      by_cases h204 : n = ConnNotif.errored (some STATUS_COMPLETE)
      · subst h204
        obtain ⟨conn, d, cc, r, cr⟩ := s
        cases cr with
        | true =>
            rw [buildStep_crashed classes m _ _ rfl, buildRun_crashed classes m ns _ rfl]
            left
            rfl
        | false =>
            by_cases hc : conn.readyState = ReadyState.closed
            · rw [buildStep_closed classes m _ _ hc]
              exact ih _
            · have hstep := connStep_onComplete_step m ["BuildEvent"] conn hc
              cases hl : (createBuildEventHandlers classes).lookup "complete" with
              | none =>
                  have hb : buildStep classes m ⟨conn, d, cc, r, false⟩
                      (ConnNotif.errored (some STATUS_COMPLETE)) =
                      ⟨{ conn with readyState := ReadyState.closed }, d, cc, true, false⟩ := by
                    unfold buildStep
                    rw [hstep]
                    dsimp only
                    rw [hl]
                    rfl
                  rw [hb, buildRun_closed classes m ns _ rfl]
                  left
                  rfl
              | some hs =>
                  by_cases hall : (hs.all (fun i =>
                      match classes.get? i with
                      | some c => c.methods.contains "complete"
                      | none => false)) = true
                  · have hb : buildStep classes m ⟨conn, d, cc, r, false⟩
                        (ConnNotif.errored (some STATUS_COMPLETE)) =
                        ⟨{ conn with readyState := ReadyState.closed }, d, cc ++ hs,
                          true, false⟩ := by
                      unfold buildStep
                      rw [hstep]
                      dsimp only
                      rw [hl]
                      dsimp only
                      rw [if_pos hall]
                      rfl
                    rw [hb, buildRun_closed classes m ns _ rfl]
                    right
                    simp [hl]
                  · have hb : buildStep classes m ⟨conn, d, cc, r, false⟩
                        (ConnNotif.errored (some STATUS_COMPLETE)) =
                        ⟨{ conn with readyState := ReadyState.closed }, d, cc,
                          true, true⟩ := by
                      unfold buildStep
                      rw [hstep]
                      dsimp only
                      rw [hl]
                      dsimp only
                      rw [if_neg hall]
                      rfl
                    rw [hb, buildRun_crashed classes m ns _ rfl]
                    left
                    rfl
      · have hstep := (buildStep_no204 classes m s n h204).1
        rcases ih (buildStep classes m s n) with h | h
        · left
          rw [h, hstep]
        · right
          rw [h, hstep]

theorem dispatch_ne_none (classes : List HandlerClass)
    (hP : ∀ c ∈ classes, "oncomplete" ∉ c.methods) (t : String) :
    dispatchBuildEvent classes t ≠ none := by
  by_cases ht : t ∈ getAllHandledEventTypes classes
  · rcases dispatch_handled classes hP t ht with ⟨hs, _, _, _, hd⟩
    rw [hd]
    simp
  · rw [dispatch_unhandled classes t ht]
    simp

theorem buildStep_message (classes : List HandlerClass) (m : Nat)
    (hP : ∀ c ∈ classes, "oncomplete" ∉ c.methods)
    (conn : ConnState) (d : List (Nat × String)) (cc : List Nat) (r : Bool)
    (nm payload : String) :
    (buildStep classes m ⟨conn, d, cc, r, false⟩ (ConnNotif.message nm payload)).conn = conn ∧
    (buildStep classes m ⟨conn, d, cc, r, false⟩ (ConnNotif.message nm payload)).crashed = false ∧
    (buildStep classes m ⟨conn, d, cc, r, false⟩
      (ConnNotif.message nm payload)).completeCalls = cc ∧
    (buildStep classes m ⟨conn, d, cc, r, false⟩
      (ConnNotif.message nm payload)).releaseCalled = r := by
  by_cases hc : conn.readyState = ReadyState.closed
  · rw [buildStep_closed classes m _ _ hc]
    exact ⟨rfl, rfl, rfl, rfl⟩
  · by_cases hcond : conn.readyState = ReadyState.isOpen ∧ nm ∈ (["BuildEvent"] : List String)
    · have hstep : connStep m ["BuildEvent"] conn (ConnNotif.message nm payload) =
          (conn, some (CallbackCall.onEvent nm payload)) := by
        simp [connStep, hc, hcond]
        exact List.mem_singleton.1 hcond.2
      rcases hd2 : dispatchBuildEvent classes payload with _ | ds
      · exact absurd hd2 (dispatch_ne_none classes hP payload)
      · have hb : buildStep classes m ⟨conn, d, cc, r, false⟩
            (ConnNotif.message nm payload) = ⟨conn, d ++ ds, cc, r, false⟩ := by
          unfold buildStep
          rw [hstep]
          dsimp only
          rw [hd2]
          rfl
        rw [hb]
        exact ⟨rfl, rfl, rfl, rfl⟩
    · have hstep : connStep m ["BuildEvent"] conn (ConnNotif.message nm payload) =
          (conn, none) := by
        simp [connStep, hc, hcond]
        intro h1 h2
        exact hcond ⟨h1, by simp [h2]⟩
      have hb : buildStep classes m ⟨conn, d, cc, r, false⟩
          (ConnNotif.message nm payload) = ⟨conn, d, cc, r, false⟩ := by
        unfold buildStep
        rw [hstep]
        rfl
      rw [hb]
      exact ⟨rfl, rfl, rfl, rfl⟩

theorem buildRun_messages (classes : List HandlerClass) (m : Nat)
    (hP : ∀ c ∈ classes, "oncomplete" ∉ c.methods) :
    ∀ (msgs : List ConnNotif) (s : BuildRunState),
      (∀ n ∈ msgs, ∃ nm p, n = ConnNotif.message nm p) → s.crashed = false →
      (buildRun classes m s msgs).conn = s.conn ∧
      (buildRun classes m s msgs).crashed = false ∧
      (buildRun classes m s msgs).completeCalls = s.completeCalls ∧
      (buildRun classes m s msgs).releaseCalled = s.releaseCalled := by
  intro msgs
  induction msgs with
  | nil => intro s _ hcr; exact ⟨rfl, hcr, rfl, rfl⟩
  | cons n ns ih =>
      intro s hmsg hcr
      obtain ⟨conn, d, cc, r, cr⟩ := s
      have hcr2 : cr = false := hcr
      subst hcr2
      rcases hmsg n (by simp) with ⟨nm, p, rfl⟩
      rw [buildRun]
      obtain ⟨h1, h2, h3, h4⟩ := buildStep_message classes m hP conn d cc r nm p
      obtain ⟨g1, g2, g3, g4⟩ := ih (buildStep classes m ⟨conn, d, cc, r, false⟩
        (ConnNotif.message nm p)) (fun q hq => hmsg q (by simp [hq])) h2
      exact ⟨g1.trans h1, g2, g3.trans h3, g4.trans h4⟩

theorem buildStep_clean_completion (classes : List HandlerClass) (m : Nat)
    (hP : ∀ c ∈ classes, "oncomplete" ∉ c.methods)
    (conn : ConnState) (d : List (Nat × String)) (cc : List Nat) (r : Bool)
    (hc : conn.readyState ≠ ReadyState.closed) :
    buildStep classes m ⟨conn, d, cc, r, false⟩
        (ConnNotif.errored (some STATUS_COMPLETE)) =
      ⟨{ conn with readyState := ReadyState.closed }, d,
        cc ++ eligibleComplete classes, true, false⟩ := by
  have hstep := connStep_onComplete_step m ["BuildEvent"] conn hc
  have hl := lookup_complete_eq classes hP
  cases helig : eligibleComplete classes with
  | nil =>
      rw [helig] at hl
      have hl2 : (createBuildEventHandlers classes).lookup "complete" = none := hl
      unfold buildStep
      rw [hstep]
      dsimp only
      rw [hl2]
      simp
  | cons e es =>
      rw [helig] at hl
      have hl2 : (createBuildEventHandlers classes).lookup "complete" = some (e :: es) := hl
      have hall : ((e :: es).all (fun i =>
          match classes.get? i with
          | some c => c.methods.contains "complete"
          | none => false)) = true := by
        rw [List.all_eq_true]
        intro j hj
        rw [← helig] at hj
        rw [eligibleComplete] at hj
        rcases (mem_eligibleCompleteAux classes 0 j).1 hj with ⟨dd, c, hget, hjd, hcc⟩
        have hget2 : classes.get? j = some c := by
          rw [show j = dd by omega]
          exact hget
        simp only [hget2]
        exact hcc
      unfold buildStep
      rw [hstep]
      dsimp only
      rw [hl2]
      dsimp only
      rw [if_pos hall]
      rfl

theorem buildStep_clean_completion_any (classes : List HandlerClass) (m : Nat)
    (hP : ∀ c ∈ classes, "oncomplete" ∉ c.methods) (s : BuildRunState)
    (hc : s.conn.readyState ≠ ReadyState.closed) (hcr : s.crashed = false) :
    buildStep classes m s (ConnNotif.errored (some STATUS_COMPLETE)) =
      ⟨{ s.conn with readyState := ReadyState.closed }, s.dispatches,
        s.completeCalls ++ eligibleComplete classes, true, false⟩ := by
  obtain ⟨conn, d, cc, r, cr⟩ := s
  have hcr2 : cr = false := hcr
  subst hcr2
  exact buildStep_clean_completion classes m hP conn d cc r hc

/-! ## Claims about finalize (per-build completion) -/

/-- C1: over any per-build stream run, each observer instance has its
`complete()` operation invoked at most once (for observer types following the
capability contract, with no operation literally named `oncomplete`); no
`complete()` runs on a stream that never signals clean completion (so none
after a terminal retry-exhausted error and none mid-stream); once the
connection is closed nothing further happens at all; and for a stream that
opens, delivers any message events, and then signals clean completion, the
invoked instances are exactly the finalize-eligible ones, in order — their
number equals the number of finalize-eligible observer classes, each counted
exactly once. -/
theorem C1_finalize_exactly_once :
    (∀ (classes : List HandlerClass) (m : Nat) (t : List ConnNotif) (j : Nat),
      (∀ c ∈ classes, "oncomplete" ∉ c.methods) →
      (buildRun classes m initBuildRun t).completeCalls.count j ≤ 1) ∧
    (∀ (classes : List HandlerClass) (m : Nat) (t : List ConnNotif),
      ConnNotif.errored (some STATUS_COMPLETE) ∉ t →
      (buildRun classes m initBuildRun t).completeCalls = []) ∧
    (∀ (classes : List HandlerClass) (m : Nat) (t1 t2 : List ConnNotif),
      (buildRun classes m initBuildRun t1).conn.readyState = ReadyState.closed →
      buildRun classes m initBuildRun (t1 ++ t2) = buildRun classes m initBuildRun t1) ∧
    (∀ (classes : List HandlerClass) (m : Nat) (msgs : List ConnNotif),
      (∀ c ∈ classes, "oncomplete" ∉ c.methods) →
      (∀ n ∈ msgs, ∃ nm p, n = ConnNotif.message nm p) →
      (buildRun classes m initBuildRun
          (ConnNotif.opened :: (msgs ++ [ConnNotif.errored (some STATUS_COMPLETE)]))).completeCalls =
        eligibleComplete classes) ∧
    (∀ classes : List HandlerClass,
      (eligibleComplete classes).length =
        (classes.filter (fun c => c.methods.contains "complete")).length) ∧
    (∀ (classes : List HandlerClass) (j : Nat),
      (eligibleComplete classes).count j =
        if ((classes.get? j).map (fun c => c.methods.contains "complete")).getD false = true
        then 1 else 0) := by
  refine ⟨?_, ?_, ?_, ?_, ?_, ?_⟩
  · intro classes m t j hP
    rcases buildRun_completeCalls_structure classes m t initBuildRun with h | h
    · rw [h]
      simp [initBuildRun]
    · rw [h, lookup_complete_eq classes hP, extendEntry_none_getD]
      have hcc : initBuildRun.completeCalls = [] := rfl
      rw [hcc, List.nil_append, eligibleComplete]
      exact eligibleCompleteAux_count_le_one classes 0 j
  · intro classes m t hnot
    have h := (buildRun_no204 classes m t initBuildRun
      (fun n hn he => hnot (he ▸ hn))).1
    simpa using h
  · intro classes m t1 t2 h
    rw [buildRun_append, buildRun_closed classes m t2 _ h]
  · intro classes m msgs hP hmsg
    have hinit : initBuildRun = ⟨initConn, [], [], false, false⟩ := rfl
    have hstep : connStep m ["BuildEvent"] initConn ConnNotif.opened =
        (({ retries := some 0, readyState := ReadyState.isOpen } : ConnState),
         some CallbackCall.onOpen) := by
      simp [connStep, initConn]
    have hopen : buildStep classes m (⟨initConn, [], [], false, false⟩ : BuildRunState)
        ConnNotif.opened =
        ⟨{ retries := some 0, readyState := ReadyState.isOpen }, [], [], false, false⟩ := by
      unfold buildStep
      rw [hstep]
      rfl
    rw [buildRun, hinit, hopen, buildRun_append]
    obtain ⟨g1, g2, g3, g4⟩ := buildRun_messages classes m hP msgs
      (⟨{ retries := some 0, readyState := ReadyState.isOpen }, [], [], false, false⟩ :
        BuildRunState) hmsg rfl
    have hone : ∀ s : BuildRunState,
        buildRun classes m s [ConnNotif.errored (some STATUS_COMPLETE)] =
          buildStep classes m s (ConnNotif.errored (some STATUS_COMPLETE)) :=
      fun s => rfl
    rw [hone, buildStep_clean_completion_any classes m hP _ (by rw [g1]; simp) g2]
    simpa using g3
  · intro classes
    rw [eligibleComplete]
    exact eligibleCompleteAux_length classes 0
  · intro classes j
    exact count_eligibleComplete classes j

/-- Witness for C1 with three observer classes of which two (indices 0 and 2)
declare a finalize operation: over a concrete stream with an open, two
message events and a clean completion, finalize runs exactly on instances 0
and 2, once each; and no finalize runs without the completion signal. -/
theorem C1_finalize_exactly_once_witness :
    (buildRun [{ methods := ["constructor", "onA", "complete"] },
        { methods := ["constructor", "onB"] },
        { methods := ["constructor", "complete"] }] 100 initBuildRun
        [ConnNotif.opened, ConnNotif.errored (some STATUS_COMPLETE)]).completeCalls.count 0
      ≤ 1 ∧
    (buildRun [{ methods := ["constructor", "onA", "complete"] },
        { methods := ["constructor", "onB"] },
        { methods := ["constructor", "complete"] }] 100 initBuildRun
        [ConnNotif.opened, ConnNotif.message "BuildEvent" "A"]).completeCalls = [] ∧
    buildRun [{ methods := ["constructor", "onA", "complete"] },
        { methods := ["constructor", "onB"] },
        { methods := ["constructor", "complete"] }] 100 initBuildRun
        ([ConnNotif.opened, ConnNotif.errored (some STATUS_COMPLETE)] ++ [ConnNotif.opened]) =
      buildRun [{ methods := ["constructor", "onA", "complete"] },
        { methods := ["constructor", "onB"] },
        { methods := ["constructor", "complete"] }] 100 initBuildRun
        [ConnNotif.opened, ConnNotif.errored (some STATUS_COMPLETE)] ∧
    (buildRun [{ methods := ["constructor", "onA", "complete"] },
        { methods := ["constructor", "onB"] },
        { methods := ["constructor", "complete"] }] 100 initBuildRun
        (ConnNotif.opened :: ([ConnNotif.message "BuildEvent" "A",
          ConnNotif.message "Other" "x"] ++
          [ConnNotif.errored (some STATUS_COMPLETE)]))).completeCalls =
      eligibleComplete [{ methods := ["constructor", "onA", "complete"] },
        { methods := ["constructor", "onB"] },
        { methods := ["constructor", "complete"] }] ∧
    (eligibleComplete [{ methods := ["constructor", "onA", "complete"] },
        { methods := ["constructor", "onB"] },
        { methods := ["constructor", "complete"] }]).length =
      ([{ methods := ["constructor", "onA", "complete"] },
        { methods := ["constructor", "onB"] },
        ({ methods := ["constructor", "complete"] } : HandlerClass)].filter
          (fun c => c.methods.contains "complete")).length ∧
    (eligibleComplete [{ methods := ["constructor", "onA", "complete"] },
        { methods := ["constructor", "onB"] },
        { methods := ["constructor", "complete"] }]).count 2 =
      if ((([{ methods := ["constructor", "onA", "complete"] },
          { methods := ["constructor", "onB"] },
          ({ methods := ["constructor", "complete"] } : HandlerClass)].get? 2).map
            (fun c => c.methods.contains "complete")).getD false = true)
      then 1 else 0 :=
  ⟨C1_finalize_exactly_once.1 _ 100
     [ConnNotif.opened, ConnNotif.errored (some STATUS_COMPLETE)] 0 (by decide),
   C1_finalize_exactly_once.2.1 _ 100
     [ConnNotif.opened, ConnNotif.message "BuildEvent" "A"] (by decide),
   C1_finalize_exactly_once.2.2.1 _ 100
     [ConnNotif.opened, ConnNotif.errored (some STATUS_COMPLETE)] [ConnNotif.opened]
     (by decide),
   C1_finalize_exactly_once.2.2.2.1 _ 100
     [ConnNotif.message "BuildEvent" "A", ConnNotif.message "Other" "x"] (by decide)
     (by
       intro n hn
       rcases List.mem_cons.1 hn with rfl | hn2
       · exact ⟨"BuildEvent", "A", rfl⟩
       · rcases List.mem_cons.1 hn2 with rfl | hn3
         · exact ⟨"Other", "x", rfl⟩
         · exact absurd hn3 (List.not_mem_nil n)),
   C1_finalize_exactly_once.2.2.2.2.1 _,
   C1_finalize_exactly_once.2.2.2.2.2 _ 2⟩

theorem buildStep_opened_conn (classes : List HandlerClass) (m : Nat) (conn : ConnState)
    (d : List (Nat × String)) (cc : List Nat) (r : Bool) :
    buildStep classes m ⟨conn, d, cc, r, false⟩ ConnNotif.opened =
      ⟨(connStep m ["BuildEvent"] conn ConnNotif.opened).1, d, cc, r, false⟩ := by
  by_cases hc : conn.readyState = ReadyState.closed
  · rw [buildStep_closed classes m _ _ hc, connStep_closed m ["BuildEvent"] conn _ hc]
  · have hstep : connStep m ["BuildEvent"] conn ConnNotif.opened =
        (({ retries := some 0, readyState := ReadyState.isOpen } : ConnState),
         some CallbackCall.onOpen) := by
      simp [connStep, hc]
    unfold buildStep
    rw [hstep]
    rfl

theorem buildStep_errored_conn (classes : List HandlerClass) (m : Nat) (conn : ConnState)
    (d : List (Nat × String)) (cc : List Nat) (r : Bool) (st : Option Nat)
    (hst : st ≠ some STATUS_COMPLETE) :
    buildStep classes m ⟨conn, d, cc, r, false⟩ (ConnNotif.errored st) =
      ⟨(connStep m ["BuildEvent"] conn (ConnNotif.errored st)).1, d, cc, r, false⟩ := by
  by_cases hc : conn.readyState = ReadyState.closed
  · rw [buildStep_closed classes m _ _ hc, connStep_closed m ["BuildEvent"] conn _ hc]
  · have hstep := connStep_errored m ["BuildEvent"] conn st hc hst
    by_cases hcond : (decide (0 < m) && jsLt conn.retries m) = true
    · rw [if_pos hcond] at hstep
      unfold buildStep
      rw [hstep]
      rfl
    · rw [if_neg hcond] at hstep
      unfold buildStep
      rw [hstep]
      rfl

theorem buildRun_errors_only (classes : List HandlerClass) (m : Nat) :
    ∀ (t : List ConnNotif) (conn : ConnState) (d : List (Nat × String))
      (cc : List Nat) (r : Bool),
      (∀ n ∈ t, n = ConnNotif.opened ∨
        ∃ st, st ≠ some STATUS_COMPLETE ∧ n = ConnNotif.errored st) →
      buildRun classes m ⟨conn, d, cc, r, false⟩ t =
        ⟨(connRun m ["BuildEvent"] conn t).1, d, cc, r, false⟩ := by
  intro t
  induction t with
  | nil => intro conn d cc r _; rfl
  | cons n ns ih =>
      intro conn d cc r h
      rcases h n (by simp) with rfl | ⟨st, hst, rfl⟩
      · rw [buildRun, buildStep_opened_conn classes m conn d cc r,
          ih _ _ _ _ (fun q hq => h q (by simp [hq]))]
        rfl
      · rw [buildRun, buildStep_errored_conn classes m conn d cc r st hst,
          ih _ _ _ _ (fun q hq => h q (by simp [hq]))]
        rfl

/-! ## Claims about terminal per-build failure -/

set_option maxRecDepth 4000 in
/-- C2 counterexample: a per-build stream (with the configured per-build
retry ceiling of 100) that opens and then errors 101 times consecutively —
the retry-exhaustion scenario — ends with the connection permanently closed,
yet `finishedProcessingBuild` was never invoked (`releaseCalled = false`),
so the admitted count is NOT decremented and the concurrency slot is never
reported free, refuting the claim; no finalize ran either. -/
theorem C2_slot_release_counterexample :
    (buildRun BUILD_EVENT_HANDLERS 100 initBuildRun
        (ConnNotif.opened ::
          List.replicate 101 (ConnNotif.errored (some 500)))).conn.readyState =
      ReadyState.closed ∧
    (buildRun BUILD_EVENT_HANDLERS 100 initBuildRun
        (ConnNotif.opened ::
          List.replicate 101 (ConnNotif.errored (some 500)))).releaseCalled = false ∧
    (buildRun BUILD_EVENT_HANDLERS 100 initBuildRun
        (ConnNotif.opened ::
          List.replicate 101 (ConnNotif.errored (some 500)))).completeCalls = [] := by
  decide

/-- C2 as amended: the concurrency slot of a build is reported free
(`finishedProcessingBuild` invoked) only when the stream signals clean
completion — so a terminally failing stream never decrements the admitted
count and never admits a pending build in its place — and a per-build run
that opens and then receives `maxRetries + 1` consecutive transient errors
ends with the connection permanently closed and the run state otherwise
untouched: no finalize invoked, no slot release, no event dispatched, and in
particular the scheduler state for all other builds is left unchanged, the
failure being scoped to this one stream. -/
theorem C2_terminal_failure_amended :
    (∀ (classes : List HandlerClass) (m : Nat) (t : List ConnNotif),
      (buildRun classes m initBuildRun t).releaseCalled = true →
      ConnNotif.errored (some STATUS_COMPLETE) ∈ t) ∧
    (∀ (classes : List HandlerClass) (m st : Nat), 0 < m → st ≠ STATUS_COMPLETE →
      buildRun classes m initBuildRun
          (ConnNotif.opened :: List.replicate (m + 1) (ConnNotif.errored (some st))) =
        { initBuildRun with
            conn := { retries := some m, readyState := ReadyState.closed } }) := by
  constructor
  · intro classes m t h
    by_contra hmem
    have h2 := (buildRun_no204 classes m t initBuildRun
      (fun n hn he => hmem (he ▸ hn))).2
    rw [h] at h2
    simp [initBuildRun] at h2
  · intro classes m st hm hst
    have hall : ∀ n ∈ (ConnNotif.opened ::
        List.replicate (m + 1) (ConnNotif.errored (some st))),
        n = ConnNotif.opened ∨
          ∃ st2, st2 ≠ some STATUS_COMPLETE ∧ n = ConnNotif.errored st2 := by
      intro n hn
      rcases List.mem_cons.1 hn with rfl | hn2
      · exact Or.inl rfl
      · exact Or.inr ⟨some st, by simpa using hst, List.eq_of_mem_replicate hn2⟩
    have hinit : initBuildRun = ⟨initConn, [], [], false, false⟩ := rfl
    rw [hinit, buildRun_errors_only classes m _ initConn [] [] false hall,
      connRun_open_exhaust m st ["BuildEvent"] hm hst]

/-- Witness for the amended C2: a run whose release was invoked does contain
the 204 signal, and with `maxRetries = 1` an open followed by two transient
errors closes the stream with nothing else changed. -/
theorem C2_terminal_failure_amended_witness :
    ConnNotif.errored (some STATUS_COMPLETE) ∈
      [ConnNotif.opened, ConnNotif.errored (some STATUS_COMPLETE)] ∧
    buildRun BUILD_EVENT_HANDLERS 1 initBuildRun
        (ConnNotif.opened :: List.replicate 2 (ConnNotif.errored (some 500))) =
      { initBuildRun with
          conn := { retries := some 1, readyState := ReadyState.closed } } :=
  ⟨C2_terminal_failure_amended.1 BUILD_EVENT_HANDLERS 100
     [ConnNotif.opened, ConnNotif.errored (some STATUS_COMPLETE)] (by decide),
   C2_terminal_failure_amended.2 BUILD_EVENT_HANDLERS 1 500 (by decide) (by decide)⟩

end BuildDurationLogger
